import Mathlib

/-!
Shallow embedding of `scripts/generate_data.py`, the synthetic Student-360
dataset generator, together with proofs about the properties claimed of it.

Modelling conventions:
* The Python `random` module's shared global state is modelled by an explicit
  `Rng` value (an infinite stream of natural draws plus a cursor) threaded
  through every generating function, in the exact order the source consumes
  randomness.  Each primitive (`randint`, `choice`, `sample`, `choices`,
  `random() < p`) consumes draws from the stream; theorems quantify over all
  streams, so they hold for every realisation of the PRNG.
* Python ints are `Int` (or `Nat` for counters); all monetary amounts in the
  source are integers, so `round(x, 2)` is the identity on them.
* `datetime` values are minutes since the proleptic-Gregorian epoch, computed
  by the standard days-from-civil algorithm; `timedelta` arithmetic becomes
  integer arithmetic.  `strftime` rendering of date-valued record fields is
  treated as the (out-of-scope) Writer's serialisation and the fields keep
  their numeric value, except where a claim is about the formatted string
  itself (`lms_course_id`, `transaction_id`, ...), which are embedded exactly
  (`f"{n:07d}"` = zero-padded decimal).
* Python's builtin `hash` on strings is salted per interpreter process; it is
  modelled as an explicit function parameter `pyhash : String → Int`.
-/

namespace Student360

/-- The shared pseudo-random source: an infinite stream of natural numbers and
a cursor.  Each primitive draw consumes one stream element. -/
structure Rng where
  stream : Nat → Nat
  pos : Nat

/-- Consume one raw draw from the stream. -/
def Rng.next (r : Rng) : Nat × Rng :=
  (r.stream r.pos, ⟨r.stream, r.pos + 1⟩)

/-- Model of `random.randint(a, b)`: a uniform integer in `[a, b]`
(realised as `a` plus the draw reduced mod the interval width). -/
def randint (a b : Int) (r : Rng) : Int × Rng :=
  let n := r.next
  (a + ((n.1 % (b - a + 1).toNat : Nat) : Int), n.2)

/-- Model of `random.choice(population)`: an element of the list selected by
the draw.  Python raises `IndexError` on an empty population; call sites in
this development only reach the empty case under hypotheses that exclude it,
and the model returns the fallback `d` there. -/
def pychoice (l : List α) (d : α) (r : Rng) : α × Rng :=
  let n := r.next
  if h : 0 < l.length then (l.get ⟨n.1 % l.length, Nat.mod_lt _ h⟩, n.2)
  else (d, n.2)

/-- Model of `random.random() < p` where `p` is given in hundredths: a coin
decided by one draw. -/
def pyrandomLt (p100 : Nat) (r : Rng) : Bool × Rng :=
  let n := r.next
  (n.1 % 100 < p100, n.2)

/-- Model of `random.sample(population, k)`: `k` distinct positions selected
draw by draw without replacement.  Python raises `ValueError` when
`k > len(population)`; call sites are used under hypotheses that exclude
that case (the model then just stops early). -/
def pysample : List α → Nat → Rng → List α × Rng
  | _, 0, r => ([], r)
  | l, k + 1, r =>
    if h : 0 < l.length then
      let n := r.next
      let i := n.1 % l.length
      let rest := pysample (l.eraseIdx i) k n.2
      (l.get ⟨i, Nat.mod_lt _ h⟩ :: rest.1, rest.2)
    else ([], r)

/-- Walk a cumulative-weight list: pick the first item whose weight bucket
contains `t`. -/
def cumPick (d : α) : List (α × Nat) → Nat → α
  | [], _ => d
  | (x, w) :: rest, t => if t < w then x else cumPick d rest (t - w)

/-- Model of `choose_weighted` (`random.choices(items, weights, k=1)[0]`):
one draw reduced mod the total weight, then located in the cumulative
distribution. -/
def choose_weighted (l : List (α × Nat)) (d : α) (r : Rng) : α × Rng :=
  let n := r.next
  (cumPick d l (n.1 % (l.map Prod.snd).sum), n.2)

/-! ### Decimal rendering (`f"{n}"`, `str.zfill` / `f"{n:0Nd}"`) -/

/-- The decimal digit character for `d` (`0 ≤ d ≤ 9`). -/
def decChar (d : Nat) : Char := Char.ofNat (48 + d)

/-- Decimal digits of `n`, most significant first; `fuel ≥ n` suffices. -/
def decDigitsAux : Nat → Nat → List Char
  | _, 0 => []
  | 0, _ => []
  | fuel + 1, n => decDigitsAux fuel (n / 10) ++ [decChar (n % 10)]

/-- Python's `str(n)` / `f"{n}"` for a nonnegative integer. -/
def pyDecStr (n : Nat) : String :=
  if n = 0 then "0" else String.mk (decDigitsAux n n)

/-- Zero-pad a string on the left to width `w` (`f"{n:0wd}"` on the rendered
decimal of a nonnegative `n`). -/
def zfill (w : Nat) (s : String) : String :=
  String.mk (List.replicate (w - s.data.length) '0' ++ s.data)

/-- Numeric value of a digit character. -/
def digitVal (c : Char) : Nat := c.toNat - 48

/-- Value of a digit string read left to right. -/
def strVal (l : List Char) : Nat := l.foldl (fun a c => 10 * a + digitVal c) 0

theorem digitVal_decChar {d : Nat} (h : d < 10) : digitVal (decChar d) = d := by
  interval_cases d <;> decide

theorem strVal_zeros (k : Nat) (l : List Char) :
    strVal (List.replicate k '0' ++ l) = strVal l := by
  induction k with
  | zero => rfl
  | succ k ih =>
    simpa [List.replicate_succ, strVal, List.foldl_cons] using ih

theorem strVal_decDigitsAux : ∀ fuel n, n ≤ fuel → strVal (decDigitsAux fuel n) = n := by
  intro fuel
  induction fuel with
  | zero =>
    intro n hn
    obtain rfl : n = 0 := Nat.le_zero.mp hn
    rfl
  | succ fuel ih =>
    intro n hn
    match n with
    | 0 => rfl
    | m + 1 =>
      have hdiv : (m + 1) / 10 ≤ fuel := by
        have := Nat.div_le_self (m + 1) 10
        have h2 : (m + 1) / 10 < m + 1 := Nat.div_lt_self (Nat.succ_pos m) (by omega)
        omega
      have hrec := ih ((m + 1) / 10) hdiv
      have hmod : (m + 1) % 10 < 10 := Nat.mod_lt _ (by omega)
      calc strVal (decDigitsAux (fuel + 1) (m + 1))
          = strVal (decDigitsAux fuel ((m + 1) / 10) ++ [decChar ((m + 1) % 10)]) := rfl
        _ = 10 * strVal (decDigitsAux fuel ((m + 1) / 10)) + digitVal (decChar ((m + 1) % 10)) := by
            simp [strVal, List.foldl_append]
        _ = 10 * ((m + 1) / 10) + (m + 1) % 10 := by rw [hrec, digitVal_decChar hmod]
        _ = m + 1 := Nat.div_add_mod (m + 1) 10

theorem strVal_pyDecStr (n : Nat) : strVal (pyDecStr n).data = n := by
  by_cases h : n = 0
  · subst h; decide
  · simp only [pyDecStr, if_neg h]
    exact strVal_decDigitsAux n n le_rfl

theorem strVal_zfill (w : Nat) (s : String) : strVal (zfill w s).data = strVal s.data := by
  simp [zfill, strVal_zeros]

/-! ### Dates: days-from-civil and minutes since epoch -/

/-- Days from the civil epoch for a proleptic Gregorian date (the standard
"days from civil" algorithm; Python's `datetime` date arithmetic agrees with
it on differences). -/
def daysFromCivil (y m d : Int) : Int :=
  let y' := if m ≤ 2 then y - 1 else y
  let era := (if 0 ≤ y' then y' else y' - 399) / 400
  let yoe := y' - era * 400
  let mp := (m + 9) % 12
  let doy := (153 * mp + 2) / 5 + d - 1
  let doe := yoe * 365 + yoe / 4 - yoe / 100 + doy
  era * 146097 + doe

/-- `datetime(y, m, d)` as minutes since the civil epoch (midnight). -/
def dtMin (y m d : Int) : Int := 1440 * daysFromCivil y m d

/-- `round(x, 2)` as applied by the source: every amount reaching it (units ×
rate, fees, payments, aid and their sums/differences) is an integer, and
Python's `round` on an `int` with any number of digits returns it unchanged. -/
def pyRound2 (x : Int) : Int := x

/-- `f"TX{trans_id:09d}"`, the transaction identifier. -/
def txIdStr (n : Nat) : String := "TX" ++ zfill 9 (pyDecStr n)

theorem strVal_zfill_pyDecStr (w n : Nat) : strVal (zfill w (pyDecStr n)).data = n := by
  rw [strVal_zfill, strVal_pyDecStr]

theorem txIdStr_injective : Function.Injective txIdStr := by
  intro a b h
  have hd := congrArg String.data h
  simp only [txIdStr, String.data_append] at hd
  have h2 := congrArg strVal (List.append_cancel_left hd)
  rwa [strVal_zfill_pyDecStr, strVal_zfill_pyDecStr] at h2

/-! ### Data model (one structure per generated row shape) -/

/-- A row of `sis/terms.csv`; dates are minutes since the civil epoch. -/
structure Term where
  term_id : String
  term_name : String
  start_date : Int
  end_date : Int
deriving DecidableEq, Repr

/-- A row of `sis/courses.csv`. -/
structure Course where
  course_id : String
  subject : String
  catalog_nbr : String
  title : String
  units : Int
deriving DecidableEq, Repr

/-- A row of `sis/sections.csv`. -/
structure Section where
  course_section_id : String
  course_id : String
  term_id : String
  section_nbr : Int
  modality : String
deriving DecidableEq, Repr

/-- A row of `student_advising/advisors.csv`. -/
structure Advisor where
  advisor_id : String
  advisor_name : String
  department : String
deriving DecidableEq, Repr

/-- A row of `sis/students.csv`; `dob` is a day ordinal. -/
structure Student where
  student_id : Int
  first_name : String
  last_name : String
  email : String
  dob : Int
  gender : String
  ethnicity : String
  residency : String
  program : String
  major : String
  admit_term_id : String
  current_term_id : String
  class_standing : String
  advisor_id : String
deriving DecidableEq, Repr

/-- A row of `sis/enrollments.csv`.  The source stores either the empty
string or a float in `grade_points`; the float values of the fixed
letter→points map are kept as their decimal literals. -/
structure Enrollment where
  student_id : Int
  course_section_id : String
  term_id : String
  enrollment_status : String
  grade_letter : String
  grade_points : String
deriving DecidableEq, Repr

/-- A row of `lms/course_xwalk.csv`. -/
structure CourseXwalk where
  course_section_id : String
  lms_course_id : String
deriving DecidableEq, Repr

/-- A row of `lms/lms_logins.csv`; `event_ts` is minutes since the epoch
(the source formats the same value with `strftime`). -/
structure LmsLogin where
  student_id : Int
  lms_course_id : String
  event_ts : Int
  event_type : String
deriving DecidableEq, Repr

/-- A row of `lms/submissions.csv`; `submitted_ts` is minutes since epoch. -/
structure Submission where
  student_id : Int
  lms_course_id : String
  assignment_id : String
  submitted_ts : Int
  score : Int
  max_score : Int
  late_flag : String
deriving DecidableEq, Repr

/-- A row of `admissions/applications.csv`; dates are day ordinals. -/
structure Application where
  student_id : Int
  application_id : String
  app_term_id : String
  app_complete_dt : Int
  decision : String
  decision_dt : Int
  deposit_flag : String
deriving DecidableEq, Repr

/-- A row of `admissions/tests.csv`; the date is a day ordinal. -/
structure TestScore where
  student_id : Int
  test_type : String
  test_date : Int
  score : Int
deriving DecidableEq, Repr

/-- A row of `financials/student_accounts.csv`. -/
structure StudentAccount where
  student_id : Int
  term_id : String
  total_charges : Int
  total_payments : Int
  balance : Int
deriving DecidableEq, Repr

/-- A row of `financials/transactions.csv` (`trans_dt` keeps the literal
`%Y-%m-%d` text the source produces from fixed dates). -/
structure Transaction where
  transaction_id : String
  student_id : Int
  term_id : String
  trans_dt : String
  trans_type : String
  amount : Int
  method : String
deriving DecidableEq, Repr

/-- A row of `financials/aid_awards.csv`. -/
structure AidAward where
  award_id : String
  student_id : Int
  term_id : String
  aid_type : String
  amount : Int
  disbursed_dt : String
deriving DecidableEq, Repr

/-- A row of `student_advising/appointments.csv`; the date is a day ordinal. -/
structure Appointment where
  appointment_id : String
  student_id : Int
  advisor_id : String
  appointment_dt : Int
  outcome : String
deriving DecidableEq, Repr

/-- A row of `student_advising/notes.csv`; the date is a day ordinal. -/
structure Note where
  note_id : String
  student_id : Int
  advisor_id : String
  note_dt : Int
  category : String
  risk_flag : String
deriving DecidableEq, Repr

/-! ### Insertion-ordered grouping (Python `dict.setdefault(key, []).append`) -/

/-- One `d.setdefault(key(a), []).append(a)` step on an insertion-ordered
association list. -/
def setdefaultAppend {κ α : Type} [DecidableEq κ] (key : α → κ) :
    List (κ × List α) → α → List (κ × List α)
  | [], a => [(key a, [a])]
  | (k, b) :: rest, a =>
    if k = key a then (k, b ++ [a]) :: rest else (k, b) :: setdefaultAppend key rest a

/-- Group a list by a key, preserving first-insertion key order and
within-group element order, exactly as a Python `dict` of lists built by
`setdefault(...).append(...)`. -/
def groupByKey {κ α : Type} [DecidableEq κ] (key : α → κ) (l : List α) :
    List (κ × List α) :=
  l.foldl (setdefaultAppend key) []

/-- `m[k]` with fallback `d` on an association list. -/
def assocD {κ β : Type} [DecidableEq κ] (k : κ) (d : β) : List (κ × β) → β
  | [] => d
  | (k', b) :: rest => if k' = k then b else assocD k d rest

/-! ### Fixed reference data (`generate_terms`) and vocabularies -/

/-- `generate_terms`: the three fixed terms spanning an academic year. -/
def generate_terms : List Term :=
  [⟨"2024FA", "Fall 2024", dtMin 2024 8 26, dtMin 2024 12 13⟩,
   ⟨"2025SP", "Spring 2025", dtMin 2025 1 13, dtMin 2025 5 2⟩,
   ⟨"2025FA", "Fall 2025", dtMin 2025 8 25, dtMin 2025 12 12⟩]

/-- Subject vocabulary of `generate_catalog`. -/
def subjectsVocab : List String :=
  ["MATH", "ENG", "CS", "BIO", "CHEM", "HIST", "ECON", "PSYC", "PHYS", "ART",
   "STAT", "BUS", "SOC", "PHIL"]

/-- Title vocabulary of `generate_catalog`. -/
def titlesVocab : List String :=
  ["Introduction", "Foundations", "Principles", "Advanced Topics", "Methods",
   "Applications", "Data Analysis", "Algorithms", "Laboratory", "Seminar", "Design"]

/-- Advisor first-name vocabulary. -/
def advisorFirstNames : List String :=
  ["Alex", "Jordan", "Taylor", "Casey", "Riley", "Morgan", "Jamie", "Avery", "Quinn",
   "Parker", "Reese", "Blake", "Drew", "Rowan", "Skyler", "Hayden", "Kendall", "Logan",
   "Emerson", "Finley"]

/-- Advisor last-name vocabulary. -/
def advisorLastNames : List String :=
  ["Smith", "Johnson", "Brown", "Jones", "Garcia", "Miller", "Davis", "Rodriguez",
   "Martinez", "Hernandez", "Lopez", "Gonzalez", "Wilson", "Anderson", "Thomas",
   "Taylor", "Moore", "Jackson", "Martin", "Lee"]

/-- Advisor department vocabulary. -/
def departmentsVocab : List String :=
  ["Engineering", "Science", "Arts", "Business", "Social Sciences", "Education",
   "Health", "Undeclared"]

/-- Student first-name vocabulary. -/
def studentFirstNames : List String :=
  ["Olivia", "Liam", "Emma", "Noah", "Ava", "Oliver", "Sophia", "Elijah", "Isabella",
   "Mateo", "Mia", "Lucas", "Amelia", "Levi", "Harper", "Asher", "Evelyn", "James",
   "Luna", "Benjamin"]

/-- Student last-name vocabulary. -/
def studentLastNames : List String :=
  ["Smith", "Johnson", "Williams", "Brown", "Jones", "Garcia", "Miller", "Davis",
   "Rodriguez", "Martinez", "Hernandez", "Lopez", "Gonzalez", "Wilson", "Anderson",
   "Thomas", "Taylor", "Moore", "Jackson", "Martin"]

/-- Student major vocabulary. -/
def majorsVocab : List String :=
  ["Computer Science", "Mathematics", "Biology", "Chemistry", "Economics",
   "Psychology", "History", "Art", "Business Administration", "Sociology",
   "Statistics", "Physics", "Philosophy", "Education", "Nursing"]

/-- Ethnicity vocabulary. -/
def ethnicityVocab : List String :=
  ["Not Disclosed", "Hispanic or Latino", "White", "Black or African American",
   "Asian", "Multiracial"]

/-- Fallback advisor for the (never reached under the claims' hypotheses)
empty-population `random.choice`. -/
def dummyAdvisor : Advisor := ⟨"", "", ""⟩

/-- Fallback term (never reached: the term list is fixed and nonempty). -/
def dummyTerm : Term := ⟨"", "", 0, 0⟩

/-! ### `generate_catalog` / `generate_sections` / `generate_advisors` -/

/-- Loop body of `generate_catalog`: the `while len(courses) < num_courses`
loop appends exactly one course per iteration, so it runs `num_courses`
times; draws per iteration are subject, catalog number, title, units. -/
def catalogLoop : Nat → Rng → List Course × Rng
  | 0, r => ([], r)
  | n + 1, r =>
    let subj := pychoice subjectsVocab "" r
    let nbr := randint 100 499 subj.2
    let catalog_nbr := pyDecStr nbr.1.toNat
    let title := pychoice titlesVocab "" nbr.2
    let units := pychoice [3, 3, 3, 4] (3 : Int) title.2
    let course : Course :=
      ⟨subj.1 ++ catalog_nbr, subj.1, catalog_nbr, subj.1 ++ " " ++ title.1, units.1⟩
    let rest := catalogLoop n units.2
    (course :: rest.1, rest.2)

/-- `generate_catalog(num_courses)`. -/
def generate_catalog (num_courses : Nat) (r : Rng) : List Course × Rng :=
  catalogLoop num_courses r

/-- Inner loop of `generate_sections` over `section_nbr in 1..num_sections`:
one modality draw per section, id `f"{course_id}-{term_id}-S{nbr:02d}"`. -/
def sectionsInner (course : Course) (term : Term) : List Nat → Rng → List Section × Rng
  | [], r => ([], r)
  | nbr :: rest, r =>
    let m := pychoice ["INPERSON", "ONLINE", "HYBRID"] "" r
    let sec : Section :=
      ⟨course.course_id ++ "-" ++ term.term_id ++ "-S" ++ zfill 2 (pyDecStr nbr),
       course.course_id, term.term_id, (nbr : Int), m.1⟩
    let rest' := sectionsInner course term rest m.2
    (sec :: rest'.1, rest'.2)

/-- Middle loop of `generate_sections` over courses: draw a weighted section
count, then generate that many sections. -/
def sectionsCourses (term : Term) : List Course → Rng → List Section × Rng
  | [], r => ([], r)
  | c :: rest, r =>
    let num := pychoice [1, 1, 1, 2, 3] 1 r
    let inner := sectionsInner c term (List.range' 1 num.1) num.2
    let rest' := sectionsCourses term rest inner.2
    (inner.1 ++ rest'.1, rest'.2)

/-- `generate_sections(courses, terms)`: outer loop over terms. -/
def generate_sections (courses : List Course) : List Term → Rng → List Section × Rng
  | [], r => ([], r)
  | t :: rest, r =>
    let inner := sectionsCourses t courses r
    let rest' := generate_sections courses rest inner.2
    (inner.1 ++ rest'.1, rest'.2)

/-- Loop body of `generate_advisors` over `i in 1..num_advisors`. -/
def advisorsLoop : List Nat → Rng → List Advisor × Rng
  | [], r => ([], r)
  | i :: rest, r =>
    let fn := pychoice advisorFirstNames "" r
    let ln := pychoice advisorLastNames "" fn.2
    let dep := pychoice departmentsVocab "" ln.2
    let adv : Advisor := ⟨"ADV" ++ zfill 3 (pyDecStr i), fn.1 ++ " " ++ ln.1, dep.1⟩
    let rest' := advisorsLoop rest dep.2
    (adv :: rest'.1, rest'.2)

/-- `generate_advisors(num_advisors)`. -/
def generate_advisors (num_advisors : Nat) (r : Rng) : List Advisor × Rng :=
  advisorsLoop (List.range' 1 num_advisors) r

/-! ### `generate_students` -/

/-- `str.lower()` as a character-wise map (the name vocabularies are plain
ASCII, on which this agrees with Python). -/
def pyLower (s : String) : String := String.mk (s.data.map Char.toLower)

/-- The body of the `for i in range(num_students)` loop of
`generate_students`, building one student row; draws in source order:
first name, last name, dob, gender, weighted residency, major, admit term,
advisor, ethnicity. -/
def mkStudentRow (terms : List Term) (advisors : List Advisor) (i : Nat) (r : Rng) :
    Student × Rng :=
  let term_ids := terms.map (fun t => t.term_id)
  let sid : Int := 10000000 + (i : Int)
  let fn := pychoice studentFirstNames "" r
  let ln := pychoice studentLastNames "" fn.2
  let email :=
    pyLower fn.1 ++ "." ++ pyLower ln.1 ++ pyDecStr (sid % 1000).toNat ++ "@example.edu"
  let dobd := randint 0 3650 ln.2
  let dob := daysFromCivil 1998 1 1 + dobd.1
  let gender := pychoice ["F", "M", "X"] "" dobd.2
  let residency :=
    choose_weighted [("IN_STATE", 70), ("OUT_OF_STATE", 25), ("INTERNATIONAL", 5)]
      "" gender.2
  let major := pychoice majorsVocab "" residency.2
  let admitT := pychoice term_ids.dropLast "" major.2
  let current_term_id := term_ids.getLastD ""
  let term_index : Int :=
    (term_ids.indexOf current_term_id : Int) - (term_ids.indexOf admitT.1 : Int)
  let class_standing :=
    ["Freshman", "Sophomore", "Junior", "Senior"].getD (min (max term_index 0) 3).toNat ""
  let adv := pychoice advisors dummyAdvisor admitT.2
  let eth := pychoice ethnicityVocab "" adv.2
  (⟨sid, fn.1, ln.1, email, dob, gender.1, eth.1, residency.1, "Undergraduate",
    major.1, admitT.1, current_term_id, class_standing, adv.1.advisor_id⟩, eth.2)

/-- One iteration of the `generate_students` loop: append the new row. -/
def studentsStep (terms : List Term) (advisors : List Advisor)
    (st : List Student × Rng) (i : Nat) : List Student × Rng :=
  let row := mkStudentRow terms advisors i st.2
  (st.1 ++ [row.1], row.2)

/-- `generate_students(num_students, terms, advisors)`; a negative count
behaves like `range(n)` on a negative `n`, i.e. no students. -/
def generate_students (num_students : Int) (terms : List Term)
    (advisors : List Advisor) (r : Rng) : List Student × Rng :=
  (List.range num_students.toNat).foldl (studentsStep terms advisors) ([], r)

/-! ### `generate_enrollments` -/

/-- The fixed letter→points lookup of `generate_enrollments` (float values
kept as their decimal literals). -/
def gradePoints (letter : String) : String :=
  if letter = "A" then "4.0" else if letter = "A-" then "3.7"
  else if letter = "B+" then "3.3" else if letter = "B" then "3.0"
  else if letter = "B-" then "2.7" else if letter = "C+" then "2.3"
  else if letter = "C" then "2.0" else if letter = "D" then "1.0" else "0.0"

/-- A current-term `ENROLLED` enrollment row with empty grades. -/
def mkCurrentEnr (sid : Int) (cur : String) (sec : Section) : Enrollment :=
  ⟨sid, sec.course_section_id, cur, "ENROLLED", "", ""⟩

/-- The prior-term inner loop: one grade-letter draw per sampled section,
producing a `COMPLETED` enrollment with the mapped grade points. -/
def priorLoop (sid : Int) (prior : String) : List Section → Rng → List Enrollment × Rng
  | [], r => ([], r)
  | sec :: rest, r =>
    let gl := pychoice ["A", "A-", "B+", "B", "B-", "C+", "C", "D", "F"] "" r
    let e : Enrollment :=
      ⟨sid, sec.course_section_id, prior, "COMPLETED", gl.1, gradePoints gl.1⟩
    let rest' := priorLoop sid prior rest gl.2
    (e :: rest'.1, rest'.2)

/-- The per-student body of `generate_enrollments`: sample 4–5 current-term
sections (each an `ENROLLED` row), then with probability 0.4 sample 3–4
prior-term sections (each a graded `COMPLETED` row). -/
def enrStep (sections_by_term : List (String × List Section)) (cur prior : String)
    (st : List Enrollment × Rng) (student : Student) : List Enrollment × Rng :=
  let k := pychoice [4, 4, 5] 4 st.2
  let cs := pysample (assocD cur [] sections_by_term) k.1 k.2
  let curBlock := cs.1.map (mkCurrentEnr student.student_id cur)
  let coin := pyrandomLt 40 cs.2
  if coin.1 then
    let k2 := pychoice [3, 4] 3 coin.2
    let ps := pysample (assocD prior [] sections_by_term) k2.1 k2.2
    let pb := priorLoop student.student_id prior ps.1 ps.2
    (st.1 ++ curBlock ++ pb.1, pb.2)
  else (st.1 ++ curBlock, coin.2)

/-- `generate_enrollments(students, sections, terms)`: group sections by
term (`setdefault(...).append`), then run the per-student body over the
student list; `terms[-1]` is the current term, `terms[-2]` the prior one. -/
def generate_enrollments (students : List Student) (sections : List Section)
    (terms : List Term) (r : Rng) : List Enrollment × Rng :=
  let current_term_id := (terms.getLastD dummyTerm).term_id
  let prior_term_id := (terms.dropLast.getLastD dummyTerm).term_id
  let sections_by_term := groupByKey (fun s => s.term_id) sections
  students.foldl (enrStep sections_by_term current_term_id prior_term_id) ([], r)

/-! ### `generate_lms` -/

/-- `f"LMS-{abs(hash(csid)) % 10_000_000:07d}"`, the synthetic platform
course id.  `pyhash` stands for Python's builtin `hash` on strings, which is
salted per interpreter process (`PYTHONHASHSEED`) and is NOT a function of
the `random` seed. -/
def lmsIdOf (pyhash : String → Int) (csid : String) : String :=
  "LMS-" ++ zfill 7 (pyDecStr ((pyhash csid).natAbs % 10000000))

/-- The hard-coded `term_dates` dict of `generate_lms` (start, end minutes). -/
def term_dates : List (String × (Int × Int)) :=
  [("2024FA", (dtMin 2024 8 26, dtMin 2024 12 13)),
   ("2025SP", (dtMin 2025 1 13, dtMin 2025 5 2)),
   ("2025FA", (dtMin 2025 8 25, dtMin 2025 12 12))]

/-- The 6-iteration login/view event loop for one enrollment: per event draw
a day offset in `[0, (end-start).days]`, an hour in `[8, 20]`, a minute in
`[0, 59]` and an event type. -/
def login_events (student_id : Int) (lms_course_id : String) (start_dt end_dt : Int) :
    Nat → Rng → List LmsLogin × Rng
  | 0, r => ([], r)
  | n + 1, r =>
    let days := randint 0 ((end_dt - start_dt) / 1440) r
    let hrs := randint 8 20 days.2
    let mins := randint 0 59 hrs.2
    let event_ts := start_dt + 1440 * days.1 + 60 * hrs.1 + mins.1
    let etype := pychoice ["login", "view", "discussion_view", "resource_click"] "" mins.2
    let ev : LmsLogin := ⟨student_id, lms_course_id, event_ts, etype.1⟩
    let rest := login_events student_id lms_course_id start_dt end_dt n etype.2
    (ev :: rest.1, rest.2)

/-- The submissions loop over `aidx in range(1, 5)`: a day offset in
`[7, (end-start).days]`, a score in `[60, 100]`, max score 100 and a late
flag biased 3:1 toward on-time. -/
def submissionRows (student_id : Int) (lms_course_id : String) (start_dt end_dt : Int) :
    List Nat → Rng → List Submission × Rng
  | [], r => ([], r)
  | aidx :: rest, r =>
    let d := randint 7 ((end_dt - start_dt) / 1440) r
    let sc := randint 60 100 d.2
    let lf := pychoice ["0", "0", "0", "1"] "" sc.2
    let sub : Submission :=
      ⟨student_id, lms_course_id, "A" ++ zfill 2 (pyDecStr aidx),
       start_dt + 1440 * d.1, sc.1, 100, lf.1⟩
    let rest' := submissionRows student_id lms_course_id start_dt end_dt rest lf.2
    (sub :: rest'.1, rest'.2)

/-- The per-enrollment body of `generate_lms`: look up the term's date range
and the section's platform id, then generate 6 login events and 4
submissions.  A term id outside `term_dates` would be a Python `KeyError`;
the model falls back to `(0, 0)` and the theorems' hypotheses exclude it. -/
def lmsStep (pyhash : String → Int)
    (st : List LmsLogin × List Submission × Rng) (enr : Enrollment) :
    List LmsLogin × List Submission × Rng :=
  let se := (term_dates.lookup enr.term_id).getD (0, 0)
  let lms_course_id := lmsIdOf pyhash enr.course_section_id
  let ev := login_events enr.student_id lms_course_id se.1 se.2 6 st.2.2
  let sb := submissionRows enr.student_id lms_course_id se.1 se.2 [1, 2, 3, 4] ev.2
  (st.1 ++ ev.1, st.2.1 ++ sb.1, sb.2)

/-- Output bundle of `generate_lms`. -/
structure LmsOut where
  xwalk : List CourseXwalk
  lms_logins : List LmsLogin
  submissions : List Submission
  rng : Rng

/-- `generate_lms(enrollments, sections)`: build the crosswalk (one platform
id per section, from the salted builtin hash), then fan each enrollment out
to 6 login events and 4 submissions. -/
def generate_lms (pyhash : String → Int) (enrollments : List Enrollment)
    (sections : List Section) (r : Rng) : LmsOut :=
  let xwalk := sections.map (fun sec =>
    (⟨sec.course_section_id, lmsIdOf pyhash sec.course_section_id⟩ : CourseXwalk))
  let ev := enrollments.foldl (lmsStep pyhash) ([], [], r)
  ⟨xwalk, ev.1, ev.2.1, ev.2.2⟩

/-! ### `generate_admissions` -/

/-- The per-student body of `generate_admissions`: one application anchored
to the admit term, and with probability 0.6 one test score. -/
def admissionsLoop : List Student → Rng → List Application × List TestScore × Rng
  | [], r => ([], [], r)
  | s :: rest, r =>
    let d1 := randint 0 200 r
    let app_complete_dt := daysFromCivil 2024 1 1 + d1.1
    let d2 := randint 5 30 d1.2
    let dep := pychoice ["1", "1", "1", "0"] "" d2.2
    let app : Application :=
      ⟨s.student_id, "APP" ++ pyDecStr s.student_id.toNat, s.admit_term_id,
       app_complete_dt, "Admit", app_complete_dt + d2.1, dep.1⟩
    let coin := pyrandomLt 60 dep.2
    if coin.1 then
      let ty := pychoice ["SAT", "ACT"] "" coin.2
      let d3 := randint 30 180 ty.2
      let sc := if ty.1 = "ACT" then randint 18 35 d3.2 else randint 900 1550 d3.2
      let test : TestScore := ⟨s.student_id, ty.1, app_complete_dt - d3.1, sc.1⟩
      let rest' := admissionsLoop rest sc.2
      (app :: rest'.1, test :: rest'.2.1, rest'.2.2)
    else
      let rest' := admissionsLoop rest coin.2
      (app :: rest'.1, rest'.2.1, rest'.2.2)

/-- `generate_admissions(students, terms)` (the `terms` parameter is unused
by the source body). -/
def generate_admissions (students : List Student) (r : Rng) :
    List Application × List TestScore × Rng :=
  admissionsLoop students r

/-! ### `generate_financials` -/

/-- Python error values surfacing from the generator. -/
inductive PyErr where
  | valueError (msg : String)
  | invalidArgument (msg : String)
deriving DecidableEq, Repr

/-- `units_by_section` as a function: course id is the text before the first
`"-"` of the section id, units come from the `courses_by_id` lookup
(`courses_units`). -/
def unitsBySection (courses_units : String → Int) (csid : String) : Int :=
  courses_units ((csid.splitOn "-").headD "")

/-- `trans_dt` of a PAYMENT transaction (fixed per term kind, rendered). -/
def payDt (term_id : String) : String :=
  if term_id.endsWith "SP" then "2025-02-01" else "2025-09-01"

/-- `trans_dt` of the CHARGE transaction. -/
def chargeDt (term_id : String) : String :=
  if term_id.endsWith "SP" then "2025-01-20" else "2025-08-28"

/-- `disbursed_dt` of an aid award. -/
def disbursedDt (term_id : String) : String :=
  if term_id.endsWith "SP" then "2025-01-10" else "2025-08-20"

/-- Mutable state of the `generate_financials` main loop. -/
structure FinState where
  accounts : List StudentAccount
  transactions : List Transaction
  aids : List AidAward
  trans_id : Nat
  award_id : Nat
  rng : Rng

/-- The 1–3 payment transactions of one (student, term) group: per payment an
amount in `[200, 2000]` and a method draw; returns the rows, their amount
sum (`payments`), the advanced transaction counter and the rng. -/
def paymentsLoop (student_id : Int) (term_id : String) :
    Nat → Nat → Rng → List Transaction × Int × Nat × Rng
  | 0, c, r => ([], 0, c, r)
  | n + 1, c, r =>
    let amt := randint 200 2000 r
    let mth := pychoice ["CARD", "ACH", "CASH"] "" amt.2
    let tx : Transaction :=
      ⟨txIdStr c, student_id, term_id, payDt term_id, "PAYMENT", amt.1, mth.1⟩
    let rest := paymentsLoop student_id term_id n (c + 1) mth.2
    (tx :: rest.1, amt.1 + rest.2.1, rest.2.2.1, rest.2.2.2)

/-- The tail of the per-group body of `generate_financials`, after the aid
draw: 1–3 payments, the single CHARGE transaction equal to `total_charges`,
and the reconciled StudentAccount row.  `aidRes` bundles the aid amount (0
if no award), the award rows added for this group, the advanced award
counter, and the rng after the aid draws. -/
def groupTail (student_id : Int) (term_id : String) (total_charges : Int)
    (st : FinState) (aidRes : Int × List AidAward × Nat × Rng) : FinState :=
  let np := pychoice [1, 2, 3] 1 aidRes.2.2.2
  let pl := paymentsLoop student_id term_id np.1 st.trans_id np.2
  let chargeTx : Transaction :=
    ⟨txIdStr pl.2.2.1, student_id, term_id, chargeDt term_id, "CHARGE",
     total_charges, "BILLING"⟩
  let total_payments := pl.2.1 + aidRes.1
  let balance := pyRound2 (total_charges - total_payments)
  let acct : StudentAccount :=
    ⟨student_id, term_id, pyRound2 total_charges, pyRound2 total_payments, balance⟩
  ⟨st.accounts ++ [acct], st.transactions ++ (pl.1 ++ [chargeTx]),
   st.aids ++ aidRes.2.1, pl.2.2.1 + 1, aidRes.2.2.1, pl.2.2.2⟩

/-- The body of `generate_financials` for one `(student_id, term_id)` group:
total units over the group's enrollments, a 70/30 tuition-rate draw, fees,
an optional aid award (~55%), then the `groupTail` above. -/
def processGroup (ub : String → Int) (st : FinState)
    (g : (Int × String) × List Enrollment) : FinState :=
  let student_id := g.1.1
  let term_id := g.1.2
  let total_units := (g.2.map (fun e => ub e.course_section_id)).sum
  let c1 := pyrandomLt 70 st.rng
  let tuition_rate : Int := if c1.1 then 350 else 650
  let charges := total_units * tuition_rate
  let f2 := randint 100 400 c1.2
  let total_charges := pyRound2 (charges + f2.1)
  let c2 := pyrandomLt 55 f2.2
  let aidRes : Int × List AidAward × Nat × Rng :=
    if c2.1 then
      let amt := randint 500 3500 c2.2
      let ty := pychoice ["Grant", "Scholarship", "Loan"] "" amt.2
      (amt.1,
       [⟨"AWD" ++ zfill 7 (pyDecStr st.award_id), student_id, term_id, ty.1, amt.1,
         disbursedDt term_id⟩],
       st.award_id + 1, ty.2)
    else (0, [], st.award_id, c2.2)
  groupTail student_id term_id total_charges st aidRes

/-- Output bundle of `generate_financials`. -/
structure FinOut where
  student_accounts : List StudentAccount
  transactions : List Transaction
  aid_awards : List AidAward
  rng : Rng

/-- The successful path of `generate_financials`: group enrollments by
`(student_id, term_id)` in insertion order (a Python dict of lists) and fold
the per-group body over the groups, with counters starting at 1. -/
def finRun (ub : String → Int) (enrollments : List Enrollment) (r : Rng) : FinOut :=
  let groups := groupByKey (fun e => (e.student_id, e.term_id)) enrollments
  let final := groups.foldl (processGroup ub) ⟨[], [], [], 1, 1, r⟩
  ⟨final.accounts, final.transactions, final.aids, final.rng⟩

/-- `generate_financials(students, enrollments, courses_by_id)`.  Before any
row is produced the source evaluates
`current_term_id = max(set(e["term_id"] for e in enrollments))` (a value it
never uses afterwards); on an empty enrollment list this raises
`ValueError: max() arg is an empty sequence`, which the model surfaces as an
error. -/
def generate_financials (courses_units : String → Int)
    (enrollments : List Enrollment) (r : Rng) : Except PyErr FinOut :=
  if enrollments = [] then .error (.valueError "max() arg is an empty sequence")
  else .ok (finRun (unitsBySection courses_units) enrollments r)

/-! ### `generate_advising` -/

/-- The 0–3 appointments (and ~50% companion notes) of one student; `aid` /
`nid` are the appointment / note id counters. -/
def advisingInner (sid : Int) (advisors : List Advisor) :
    Nat → Nat → Nat → Rng → List Appointment × List Note × Nat × Nat × Rng
  | 0, aid, nid, r => ([], [], aid, nid, r)
  | k + 1, aid, nid, r =>
    let adv := pychoice advisors dummyAdvisor r
    let mo := pychoice [(2 : Int), 3, 9, 10] 2 adv.2
    let dy := randint 1 28 mo.2
    let dt := daysFromCivil 2025 mo.1 dy.1
    let outc := pychoice ["Completed", "No Show", "Rescheduled", "Action Plan"] "" dy.2
    let appt : Appointment :=
      ⟨"APT" ++ zfill 7 (pyDecStr aid), sid, adv.1.advisor_id, dt, outc.1⟩
    let coin := pyrandomLt 50 outc.2
    if coin.1 then
      let cat := pychoice ["Academic", "Financial", "Wellness", "Career"] "" coin.2
      let rf := pychoice ["0", "0", "1"] "" cat.2
      let note : Note :=
        ⟨"NOTE" ++ zfill 7 (pyDecStr nid), sid, adv.1.advisor_id, dt, cat.1, rf.1⟩
      let rest := advisingInner sid advisors k (aid + 1) (nid + 1) rf.2
      (appt :: rest.1, note :: rest.2.1, rest.2.2)
    else
      let rest := advisingInner sid advisors k (aid + 1) nid coin.2
      (appt :: rest.1, rest.2.1, rest.2.2)

/-- The outer loop of `generate_advising` over students. -/
def advisingLoop (advisors : List Advisor) :
    List Student → Nat → Nat → Rng → List Appointment × List Note × Rng
  | [], _, _, r => ([], [], r)
  | s :: rest, aid, nid, r =>
    let k := pychoice [0, 0, 1, 1, 2, 3] 0 r
    let inner := advisingInner s.student_id advisors k.1 aid nid k.2
    let rest' := advisingLoop advisors rest inner.2.2.1 inner.2.2.2.1 inner.2.2.2.2
    (inner.1 ++ rest'.1, inner.2.1 ++ rest'.2.1, rest'.2.2)

/-- `generate_advising(students, advisors)`. -/
def generate_advising (students : List Student) (advisors : List Advisor) (r : Rng) :
    List Appointment × List Note × Rng :=
  advisingLoop advisors students 1 1 r

/-! ### `main`: the full pipeline -/

/-- The file paths `main` writes before reaching `generate_financials`. -/
def preFinFiles : List String :=
  ["sis/students.csv", "sis/terms.csv", "sis/courses.csv", "sis/sections.csv",
   "sis/enrollments.csv", "lms/course_xwalk.csv", "lms/lms_logins.csv",
   "lms/submissions.csv", "admissions/applications.csv", "admissions/tests.csv"]

/-- The remaining file paths (financials, advising). -/
def postFinFiles : List String :=
  ["financials/student_accounts.csv", "financials/transactions.csv",
   "financials/aid_awards.csv", "student_advising/advisors.csv",
   "student_advising/appointments.csv", "student_advising/notes.csv"]

/-- `main(num_students, seed, out_dir)` modelled at the row level: `r` is the
stream seeded by `random.seed(seed)`, `pyhash` the process's salted string
hash, and writing a CSV is recorded as its path (the Writer is an external
collaborator).  `main` performs NO validation of `num_students`; the result
is the list of files written before the run ends, plus the error that aborted
it, if any.  `argparse` itself accepts any integer. -/
def runMain (num_students : Int) (pyhash : String → Int) (r : Rng) :
    List String × Option PyErr :=
  let terms := generate_terms
  let cat := generate_catalog 120 r
  let secs := generate_sections cat.1 terms cat.2
  let advs := generate_advisors 50 secs.2
  let studs := generate_students num_students terms advs.1 advs.2
  let enrs := generate_enrollments studs.1 secs.1 terms studs.2
  let courses_units := fun cid =>
    ((cat.1.reverse.find? (fun c => c.course_id == cid)).map (fun c => c.units)).getD 0
  let lms := generate_lms pyhash enrs.1 secs.1 enrs.2
  let adm := generate_admissions studs.1 lms.rng
  match generate_financials courses_units enrs.1 adm.2.2 with
  | .error e => (preFinFiles, some e)
  | .ok fin =>
    let _adv := generate_advising studs.1 advs.1 fin.rng
    (preFinFiles ++ postFinFiles, none)

/-! ### Specifications of the random primitives -/

theorem randint_ge (a b : Int) (r : Rng) : a ≤ (randint a b r).1 := by
  simp only [randint]
  omega

theorem randint_le (a b : Int) (r : Rng) (h : a ≤ b) : (randint a b r).1 ≤ b := by
  simp only [randint]
  have h1 : 0 < (b - a + 1).toNat := by omega
  have h2 := Nat.mod_lt (r.next.1) h1
  omega

theorem pychoice_mem {α : Type} {l : List α} (d : α) (r : Rng) (h : l ≠ []) :
    (pychoice l d r).1 ∈ l := by
  simp only [pychoice]
  split
  · exact List.get_mem _ _ _
  · exact absurd (List.length_pos.mpr h) (by assumption)

theorem pysample_subset {α : Type} :
    ∀ (k : Nat) (l : List α) (r : Rng), ∀ x ∈ (pysample l k r).1, x ∈ l := by
  intro k
  induction k with
  | zero => intro l r x hx; simp [pysample] at hx
  | succ k ih =>
    intro l r x hx
    simp only [pysample] at hx
    split at hx
    · rcases List.mem_cons.mp hx with h1 | h1
      · exact h1 ▸ List.get_mem _ _ _
      · exact List.eraseIdx_subset _ _ (ih _ _ x h1)
    · simp at hx

theorem pysample_length {α : Type} :
    ∀ (k : Nat) (l : List α) (r : Rng), k ≤ l.length → (pysample l k r).1.length = k := by
  intro k
  induction k with
  | zero => intro l r _; rfl
  | succ k ih =>
    intro l r hk
    have hl : 0 < l.length := by omega
    simp only [pysample, dif_pos hl, List.length_cons]
    rw [ih _ _ (by rw [List.length_eraseIdx_of_lt (Nat.mod_lt _ hl)]; omega)]

/-- Fold preservation: an invariant kept by every step survives the fold. -/
theorem foldl_preserve {σ α : Type} {P : σ → Prop} {f : σ → α → σ}
    (hf : ∀ s a, P s → P (f s a)) : ∀ (l : List α) (s : σ), P s → P (l.foldl f s) := by
  intro l
  induction l with
  | nil => intro s hs; exact hs
  | cons a t ih => intro s hs; exact ih _ (hf s a hs)

/-! ### Properties of the insertion-ordered grouping -/

theorem keys_setdefault {κ α : Type} [DecidableEq κ] (key : α → κ) (a : α) :
    ∀ m : List (κ × List α), (setdefaultAppend key m a).map Prod.fst =
      if key a ∈ m.map Prod.fst then m.map Prod.fst
      else m.map Prod.fst ++ [key a] := by
  intro m
  induction m with
  | nil => simp [setdefaultAppend]
  | cons p rest ih =>
    obtain ⟨k, b⟩ := p
    by_cases h : k = key a
    · subst h
      simp [setdefaultAppend]
    · simp only [setdefaultAppend, if_neg h, List.map_cons, ih]
      by_cases h2 : key a ∈ rest.map Prod.fst
      · simp [h2, List.mem_cons, Ne.symm h]
      · simp [h2, List.mem_cons, Ne.symm h]

theorem assocD_setdefault {κ α : Type} [DecidableEq κ] (key : α → κ) (a : α) (k : κ) :
    ∀ m : List (κ × List α), assocD k [] (setdefaultAppend key m a) =
      assocD k [] m ++ if key a = k then [a] else [] := by
  intro m
  induction m with
  | nil =>
    by_cases h : key a = k <;> simp [setdefaultAppend, assocD, h]
  | cons p rest ih =>
    obtain ⟨k', b⟩ := p
    by_cases h : k' = key a
    · subst h
      by_cases h2 : key a = k <;> simp [setdefaultAppend, assocD, h2]
    · by_cases h2 : k' = k
      · have h3 : ¬ key a = k := fun hh => h (h2.trans hh.symm)
        have h4 : ¬ k = key a := fun hh => h (h2.trans hh)
        simp [setdefaultAppend, if_neg h, assocD, h2, h3, h4]
      · simp [setdefaultAppend, if_neg h, assocD, if_neg h2, ih]

theorem assocD_foldl_setdefault {κ α : Type} [DecidableEq κ] (key : α → κ) (k : κ) :
    ∀ (l : List α) (m : List (κ × List α)),
      assocD k [] (l.foldl (setdefaultAppend key) m) =
        assocD k [] m ++ l.filter (fun x => decide (key x = k)) := by
  intro l
  induction l with
  | nil => simp
  | cons a t ih =>
    intro m
    rw [List.foldl_cons, ih, assocD_setdefault]
    by_cases h : key a = k
    · simp [h, List.filter_cons]
    · simp [h, List.filter_cons]

/-- The bucket of `k` in the grouping is exactly the sublist of elements with
key `k`, in order. -/
theorem assocD_groupByKey {κ α : Type} [DecidableEq κ] (key : α → κ) (k : κ)
    (l : List α) :
    assocD k [] (groupByKey key l) = l.filter (fun x => decide (key x = k)) := by
  rw [groupByKey, assocD_foldl_setdefault]
  rfl

theorem mem_bucket_groupByKey {κ α : Type} [DecidableEq κ] {key : α → κ} {k : κ}
    {l : List α} {x : α} (hx : x ∈ assocD k [] (groupByKey key l)) :
    key x = k ∧ x ∈ l := by
  rw [assocD_groupByKey] at hx
  have := List.mem_filter.mp hx
  exact ⟨of_decide_eq_true this.2, this.1⟩

/-- The grouping's keys are pairwise distinct (Python dict keys). -/
theorem nodup_keys_groupByKey {κ α : Type} [DecidableEq κ] (key : α → κ)
    (l : List α) : ((groupByKey key l).map Prod.fst).Nodup := by
  have := foldl_preserve (P := fun m : List (κ × List α) => (m.map Prod.fst).Nodup)
    (f := setdefaultAppend key) ?_ l [] List.nodup_nil
  · exact this
  · intro m a hm
    rw [keys_setdefault]
    split
    · exact hm
    · simp only [List.nodup_append, List.nodup_singleton, List.disjoint_singleton]
      exact ⟨hm, trivial, by assumption⟩

theorem mem_keys_foldl_setdefault {κ α : Type} [DecidableEq κ] (key : α → κ) (k : κ) :
    ∀ (l : List α) (m : List (κ × List α)),
      (k ∈ (l.foldl (setdefaultAppend key) m).map Prod.fst ↔
        k ∈ m.map Prod.fst ∨ ∃ a ∈ l, key a = k) := by
  intro l
  induction l with
  | nil => simp
  | cons a t ih =>
    intro m
    rw [List.foldl_cons, ih, keys_setdefault]
    by_cases h : key a ∈ m.map Prod.fst
    · rw [if_pos h]
      constructor
      · rintro (h1 | ⟨x, hx, hk⟩)
        · exact Or.inl h1
        · exact Or.inr ⟨x, List.mem_cons_of_mem a hx, hk⟩
      · rintro (h1 | ⟨x, hx, hk⟩)
        · exact Or.inl h1
        · rcases List.mem_cons.mp hx with rfl | hx'
          · exact Or.inl (hk ▸ h)
          · exact Or.inr ⟨x, hx', hk⟩
    · rw [if_neg h]
      constructor
      · rintro (h1 | ⟨x, hx, hk⟩)
        · rcases List.mem_append.mp h1 with h2 | h2
          · exact Or.inl h2
          · exact Or.inr ⟨a, List.mem_cons_self a t, (List.mem_singleton.mp h2).symm⟩
        · exact Or.inr ⟨x, List.mem_cons_of_mem a hx, hk⟩
      · rintro (h1 | ⟨x, hx, hk⟩)
        · exact Or.inl (List.mem_append.mpr (Or.inl h1))
        · rcases List.mem_cons.mp hx with rfl | hx'
          · exact Or.inl (List.mem_append.mpr (Or.inr (List.mem_singleton.mpr hk.symm)))
          · exact Or.inr ⟨x, hx', hk⟩

/-- A key occurs in the grouping iff some element has that key. -/
theorem mem_keys_groupByKey {κ α : Type} [DecidableEq κ] (key : α → κ) (k : κ)
    (l : List α) :
    k ∈ (groupByKey key l).map Prod.fst ↔ ∃ a ∈ l, key a = k := by
  rw [groupByKey, mem_keys_foldl_setdefault]
  simp

/-! ### Counting list elements with a given key -/

theorem length_filter_key_le_one {κ α : Type} [DecidableEq κ] {f : α → κ}
    {l : List α} (h : (l.map f).Nodup) (k : κ) :
    (l.filter (fun a => decide (f a = k))).length ≤ 1 := by
  induction l with
  | nil => simp
  | cons a t ih =>
    rw [List.map_cons, List.nodup_cons] at h
    by_cases hk : f a = k
    · rw [List.filter_cons_of_pos (by simpa using hk)]
      have ht : t.filter (fun a => decide (f a = k)) = [] := by
        rw [List.filter_eq_nil_iff]
        intro x hx hpx
        exact h.1 (by
          have : f x = k := by simpa using hpx
          rw [hk, ← this]
          exact List.mem_map_of_mem f hx)
      simp [ht]
    · rw [List.filter_cons_of_neg (by simpa using hk)]
      exact ih h.2

theorem length_filter_key_eq_one {κ α : Type} [DecidableEq κ] {f : α → κ}
    {l : List α} (h : (l.map f).Nodup) {k : κ} (hk : k ∈ l.map f) :
    (l.filter (fun a => decide (f a = k))).length = 1 := by
  have h1 := length_filter_key_le_one h k
  obtain ⟨a, ha, hfa⟩ := List.mem_map.mp hk
  have h2 : a ∈ l.filter (fun a => decide (f a = k)) :=
    List.mem_filter.mpr ⟨ha, by simpa using hfa⟩
  have h3 : 0 < (l.filter (fun a => decide (f a = k))).length :=
    List.length_pos.mpr (List.ne_nil_of_mem h2)
  omega

/-! ### Students: admit / current term and class standing -/

/-- What one pass of the student-row builder guarantees when run over the
fixed term list: the current term is the last term, and the admit term
uniquely determines the class standing (index distance 2 → Junior, 1 →
Sophomore). -/
def studentInv (s : Student) : Prop :=
  s.current_term_id = "2025FA" ∧
  ((s.admit_term_id = "2024FA" ∧ s.class_standing = "Junior") ∨
   (s.admit_term_id = "2025SP" ∧ s.class_standing = "Sophomore"))

theorem mkStudentRow_spec (advisors : List Advisor) (i : Nat) (r : Rng) :
    studentInv (mkStudentRow generate_terms advisors i r).1 := by
  refine ⟨rfl, ?_⟩
  have hmem : (mkStudentRow generate_terms advisors i r).1.admit_term_id ∈
      ["2024FA", "2025SP"] := pychoice_mem "" _ (by decide)
  have hstand : (mkStudentRow generate_terms advisors i r).1.class_standing =
      ["Freshman", "Sophomore", "Junior", "Senior"].getD
        (min (max ((2 : Int) -
          (["2024FA", "2025SP", "2025FA"].indexOf
            (mkStudentRow generate_terms advisors i r).1.admit_term_id : Int)) 0) 3).toNat
        "" := rfl
  rcases List.mem_cons.mp hmem with h | h2
  · rw [h] at hstand
    exact Or.inl ⟨h, hstand.trans (by decide)⟩
  · have h := List.mem_singleton.mp h2
    rw [h] at hstand
    exact Or.inr ⟨h, hstand.trans (by decide)⟩

theorem generate_students_inv (n : Int) (advisors : List Advisor) (r : Rng) :
    ∀ s ∈ (generate_students n generate_terms advisors r).1, studentInv s := by
  refine foldl_preserve (P := fun st : List Student × Rng => ∀ s ∈ st.1, studentInv s)
    ?_ (List.range n.toNat) ([], r) (by simp)
  intro st i hst s hs
  rcases List.mem_append.mp hs with h | h
  · exact hst s h
  · rw [List.mem_singleton.mp h]
    exact mkStudentRow_spec advisors i st.2

/-- A fixed all-zeros random stream, used to produce concrete sample runs. -/
def rngZero : Rng := ⟨fun _ => 0, 0⟩

/-- Fallback student value for `headD`. -/
def dummyStudent : Student := ⟨0, "", "", "", 0, "", "", "", "", "", "", "", "", ""⟩

/-- The single student of a concrete one-student run on the all-zeros
stream (its admit term comes out as the first term, `"2024FA"`). -/
def sampleStudent : Student :=
  ((generate_students 1 generate_terms [dummyAdvisor] rngZero).1).headD dummyStudent

/-- C2 (counterexample): on a concrete run whose student has
`admit_term_id = "2024FA"` (first term) and `current_term_id = "2025FA"`
(last term), `class_standing` is NOT `"Senior"` — the index distance
between first and last of the three terms is 2, which maps to `"Junior"`. -/
theorem c2_counterexample :
    ¬ (∀ s ∈ (generate_students 1 generate_terms [dummyAdvisor] rngZero).1,
        s.admit_term_id = "2024FA" → s.current_term_id = "2025FA" →
        s.class_standing = "Senior") := by decide

/-- C2 (amended): every student generated over the fixed terms whose
`admit_term_id` is the first term (`"2024FA"`) and whose `current_term_id`
is the third and last term (`"2025FA"`) has `class_standing = "Junior"`
(the ordinal distance is 2 and `min (max 2 0) 3 = 2` selects `"Junior"`). -/
theorem c2_first_admit_class_standing (n : Int) (advisors : List Advisor) (r : Rng) :
    ∀ s ∈ (generate_students n generate_terms advisors r).1,
      s.admit_term_id = "2024FA" → s.current_term_id = "2025FA" →
      s.class_standing = "Junior" := by
  intro s hs ha _
  rcases (generate_students_inv n advisors r s hs).2 with ⟨_, h⟩ | ⟨h2, _⟩
  · exact h
  · exact absurd (ha.symm.trans h2) (by decide)

/-- Witness for C2 (amended) at a concrete input. -/
theorem c2_first_admit_class_standing_witness :
    sampleStudent ∈ (generate_students 1 generate_terms [dummyAdvisor] rngZero).1 ∧
    sampleStudent.class_standing = "Junior" :=
  ⟨by decide,
   c2_first_admit_class_standing 1 [dummyAdvisor] rngZero sampleStudent (by decide)
     (by decide) (by decide)⟩

/-- C8: for every generated student (over the fixed term list), the admit
term strictly precedes the current term in the chronological order of the
term list (smaller index), and the current term is the last defined term. -/
theorem c8_admit_precedes_current (n : Int) (advisors : List Advisor) (r : Rng) :
    ∀ s ∈ (generate_students n generate_terms advisors r).1,
      (generate_terms.map (fun t => t.term_id)).indexOf s.admit_term_id <
        (generate_terms.map (fun t => t.term_id)).indexOf s.current_term_id ∧
      s.current_term_id = (generate_terms.getLastD dummyTerm).term_id := by
  intro s hs
  obtain ⟨hcur, hstand⟩ := generate_students_inv n advisors r s hs
  refine ⟨?_, hcur.trans (by decide)⟩
  rcases hstand with ⟨ha, _⟩ | ⟨ha, _⟩ <;> rw [ha, hcur] <;> decide

/-- Witness for C8 at a concrete input. -/
theorem c8_admit_precedes_current_witness :
    sampleStudent ∈ (generate_students 1 generate_terms [dummyAdvisor] rngZero).1 ∧
    ((generate_terms.map (fun t => t.term_id)).indexOf sampleStudent.admit_term_id <
      (generate_terms.map (fun t => t.term_id)).indexOf sampleStudent.current_term_id ∧
     sampleStudent.current_term_id = (generate_terms.getLastD dummyTerm).term_id) :=
  ⟨by decide, c8_admit_precedes_current 1 [dummyAdvisor] rngZero sampleStudent (by decide)⟩

/-! ### Enrollments: referential consistency with sections -/

theorem priorLoop_mem (sid : Int) (prior : String) :
    ∀ (secs : List Section) (r : Rng), ∀ e ∈ (priorLoop sid prior secs r).1,
      ∃ sec ∈ secs, e.course_section_id = sec.course_section_id ∧
        e.term_id = prior ∧ e.student_id = sid := by
  intro secs
  induction secs with
  | nil => intro r e he; simp [priorLoop] at he
  | cons sec rest ih =>
    intro r e he
    simp only [priorLoop] at he
    rcases List.mem_cons.mp he with rfl | h
    · exact ⟨sec, List.mem_cons_self _ _, rfl, rfl, rfl⟩
    · obtain ⟨sec', hs', hprops⟩ := ih _ e h
      exact ⟨sec', List.mem_cons_of_mem _ hs', hprops⟩

/-- Every enrollment produced by the per-student body references a section of
the input list whose `term_id` equals the enrollment's `term_id`. -/
theorem enrStep_sections {sections : List Section} (cur prior : String)
    (st : List Enrollment × Rng) (stud : Student)
    (hst : ∀ e ∈ st.1, ∃ sec ∈ sections,
      sec.course_section_id = e.course_section_id ∧ sec.term_id = e.term_id) :
    ∀ e ∈ (enrStep (groupByKey (fun s => s.term_id) sections) cur prior st stud).1,
      ∃ sec ∈ sections,
        sec.course_section_id = e.course_section_id ∧ sec.term_id = e.term_id := by
  intro e he
  simp only [enrStep] at he
  split at he
  · rcases List.mem_append.mp he with h1 | h1
    · rcases List.mem_append.mp h1 with h2 | h2
      · exact hst e h2
      · obtain ⟨sec, hsec, rfl⟩ := List.mem_map.mp h2
        have hb := mem_bucket_groupByKey (pysample_subset _ _ _ sec hsec)
        exact ⟨sec, hb.2, rfl, hb.1⟩
    · obtain ⟨sec, hsec, hid, hterm, _⟩ := priorLoop_mem _ _ _ _ e h1
      have hb := mem_bucket_groupByKey (pysample_subset _ _ _ sec hsec)
      exact ⟨sec, hb.2, hid.symm, by rw [hterm, hb.1]⟩
  · rcases List.mem_append.mp he with h1 | h2
    · exact hst e h1
    · obtain ⟨sec, hsec, rfl⟩ := List.mem_map.mp h2
      have hb := mem_bucket_groupByKey (pysample_subset _ _ _ sec hsec)
      exact ⟨sec, hb.2, rfl, hb.1⟩

theorem generate_enrollments_sections (students : List Student)
    (sections : List Section) (terms : List Term) (r : Rng) :
    ∀ e ∈ (generate_enrollments students sections terms r).1,
      ∃ sec ∈ sections,
        sec.course_section_id = e.course_section_id ∧ sec.term_id = e.term_id := by
  refine foldl_preserve
    (P := fun st : List Enrollment × Rng => ∀ e ∈ st.1, ∃ sec ∈ sections,
      sec.course_section_id = e.course_section_id ∧ sec.term_id = e.term_id)
    ?_ students ([], r) (by simp)
  intro st stud hst
  exact enrStep_sections _ _ st stud hst

/-- C7: for every generated enrollment, the section it references (by
`course_section_id`, unique across sections) carries the same `term_id` as
the enrollment. -/
theorem c7_enrollment_term_matches_section (students : List Student)
    (sections : List Section) (terms : List Term) (r : Rng)
    (hnd : (sections.map (fun s => s.course_section_id)).Nodup) :
    ∀ e ∈ (generate_enrollments students sections terms r).1,
      ∀ sec ∈ sections, sec.course_section_id = e.course_section_id →
        sec.term_id = e.term_id := by
  intro e he sec hsec hid
  obtain ⟨sec', hsec', hid', hterm⟩ :=
    generate_enrollments_sections students sections terms r e he
  have heq : sec = sec' :=
    List.inj_on_of_nodup_map hnd hsec hsec' (hid.trans hid'.symm)
  rw [heq]
  exact hterm

/-- Concrete sections (five in the current term, four in the prior term)
used to instantiate witnesses. -/
def sampleSections : List Section :=
  [⟨"CS101-2025FA-S01", "CS101", "2025FA", 1, "ONLINE"⟩,
   ⟨"CS102-2025FA-S01", "CS102", "2025FA", 1, "ONLINE"⟩,
   ⟨"CS103-2025FA-S01", "CS103", "2025FA", 1, "ONLINE"⟩,
   ⟨"CS104-2025FA-S01", "CS104", "2025FA", 1, "ONLINE"⟩,
   ⟨"CS105-2025FA-S01", "CS105", "2025FA", 1, "ONLINE"⟩,
   ⟨"CS201-2025SP-S01", "CS201", "2025SP", 1, "ONLINE"⟩,
   ⟨"CS202-2025SP-S01", "CS202", "2025SP", 1, "ONLINE"⟩,
   ⟨"CS203-2025SP-S01", "CS203", "2025SP", 1, "ONLINE"⟩,
   ⟨"CS204-2025SP-S01", "CS204", "2025SP", 1, "ONLINE"⟩]

/-- The concrete one-student enrollment run used by witnesses. -/
def sampleEnrRun : List Enrollment × Rng :=
  generate_enrollments (generate_students 1 generate_terms [dummyAdvisor] rngZero).1
    sampleSections generate_terms
    (generate_students 1 generate_terms [dummyAdvisor] rngZero).2

/-- Fallback enrollment value for `headD`. -/
def dummyEnrollment : Enrollment := ⟨0, "", "", "", "", ""⟩

/-- First enrollment of the concrete run. -/
def sampleEnrollment : Enrollment := sampleEnrRun.1.headD dummyEnrollment

/-- Witness for C7 at a concrete input. -/
theorem c7_enrollment_term_matches_section_witness :
    (sampleSections.map (fun s => s.course_section_id)).Nodup ∧
    sampleEnrollment ∈ sampleEnrRun.1 ∧
    (sampleSections.headD ⟨"", "", "", 0, ""⟩) ∈ sampleSections ∧
    (sampleSections.headD ⟨"", "", "", 0, ""⟩).course_section_id =
      sampleEnrollment.course_section_id ∧
    (sampleSections.headD ⟨"", "", "", 0, ""⟩).term_id = sampleEnrollment.term_id :=
  ⟨by decide, by decide, by decide, by decide,
   c7_enrollment_term_matches_section
     (generate_students 1 generate_terms [dummyAdvisor] rngZero).1 sampleSections
     generate_terms (generate_students 1 generate_terms [dummyAdvisor] rngZero).2
     (by decide) sampleEnrollment (by decide)
     (sampleSections.headD ⟨"", "", "", 0, ""⟩) (by decide) (by decide)⟩

/-! ### LMS events: timestamp ranges -/

/-- Every login/view event generated by the event loop has a timestamp at
least the term start (events start at hour 8) and strictly before the day
after the term end: the day offset is drawn in `[0, (end-start).days]` and
then 8–20 hours and 0–59 minutes are added, so the timestamp can exceed the
midnight `end_dt` itself by up to 20 h 59 min but its calendar date stays
within the term. -/
theorem login_events_in_range (student_id : Int) (lms_course_id : String)
    (start_dt end_dt : Int) (h : start_dt ≤ end_dt) :
    ∀ (n : Nat) (r : Rng), ∀ ev ∈ (login_events student_id lms_course_id start_dt end_dt n r).1,
      start_dt ≤ ev.event_ts ∧ ev.event_ts < end_dt + 1440 := by
  intro n
  induction n with
  | zero => intro r ev hev; simp [login_events] at hev
  | succ n ih =>
    intro r ev hev
    simp only [login_events] at hev
    rcases List.mem_cons.mp hev with rfl | hrest
    · dsimp only
      have hDnn : 0 ≤ (end_dt - start_dt) / 1440 :=
        Int.ediv_nonneg (by omega) (by norm_num)
      have hd0 := randint_ge 0 ((end_dt - start_dt) / 1440) r
      have hdD := randint_le 0 ((end_dt - start_dt) / 1440) r hDnn
      have h8 := randint_ge 8 20 (randint 0 ((end_dt - start_dt) / 1440) r).2
      have h20 := randint_le 8 20 (randint 0 ((end_dt - start_dt) / 1440) r).2 (by norm_num)
      have hm0 := randint_ge 0 59
        (randint 8 20 (randint 0 ((end_dt - start_dt) / 1440) r).2).2
      have hm59 := randint_le 0 59
        (randint 8 20 (randint 0 ((end_dt - start_dt) / 1440) r).2).2 (by norm_num)
      have hmod := Int.ediv_add_emod (end_dt - start_dt) 1440
      have hrem := Int.emod_nonneg (end_dt - start_dt) (by norm_num : (1440 : Int) ≠ 0)
      constructor <;> omega
    · exact ih _ ev hrest

/-- C6 (amended): every login/view event that the per-enrollment body of
`generate_lms` adds for an enrollment (beyond the events already
accumulated) has a timestamp `t` with `start_date ≤ t < end_date + 1 day`
for the enrollment's term — its calendar date lies in the term's date range,
though `t` itself can exceed the midnight `end_date` by up to 20 h 59 min. -/
theorem c6_login_event_within_term (pyhash : String → Int)
    (st : List LmsLogin × List Submission × Rng) (enr : Enrollment)
    (s e : Int) (hse : term_dates.lookup enr.term_id = some (s, e)) (h : s ≤ e) :
    ∀ ev ∈ (lmsStep pyhash st enr).1,
      ev ∈ st.1 ∨ (s ≤ ev.event_ts ∧ ev.event_ts < e + 1440) := by
  intro ev hev
  simp only [lmsStep, hse, Option.getD_some] at hev
  rcases List.mem_append.mp hev with h1 | h1
  · exact Or.inl h1
  · exact Or.inr (login_events_in_range _ _ s e h 6 _ ev h1)

/-- A fixed stream whose every draw is 109, driving the first event of the
2024FA term (109 days long) onto the end date with a 13:49 time of day. -/
def rng109 : Rng := ⟨fun _ => 109, 0⟩

/-- Concrete section for the LMS counterexample run. -/
def cexSection : Section := ⟨"MATH101-2024FA-S01", "MATH101", "2024FA", 1, "INPERSON"⟩

/-- Concrete enrollment referencing `cexSection` in term 2024FA. -/
def cexEnrollment : Enrollment :=
  ⟨10000000, "MATH101-2024FA-S01", "2024FA", "ENROLLED", "", ""⟩

/-- A hash-function realisation (Python's salted `hash` is some function of
this type in any given process). -/
def hashZero : String → Int := fun _ => 0

/-- C6 (counterexample): in a concrete `generate_lms` run, an event of a
2024FA enrollment has a timestamp strictly after the term's `end_date`
(2024-12-13 13:49 > 2024-12-13 00:00), so "between start_date and end_date"
fails as stated. -/
theorem c6_counterexample :
    ¬ (∀ ev ∈ (generate_lms hashZero [cexEnrollment] [cexSection] rng109).lms_logins,
        dtMin 2024 8 26 ≤ ev.event_ts ∧ ev.event_ts ≤ dtMin 2024 12 13) := by decide

/-- Fallback login value for `headD`. -/
def dummyLogin : LmsLogin := ⟨0, "", 0, ""⟩

/-- The first event added by the per-enrollment body on the all-zeros
stream. -/
def sampleLogin : LmsLogin :=
  (lmsStep hashZero ([], [], rngZero) cexEnrollment).1.headD dummyLogin

/-- Witness for C6 (amended) at a concrete input. -/
theorem c6_login_event_within_term_witness :
    term_dates.lookup cexEnrollment.term_id =
      some (dtMin 2024 8 26, dtMin 2024 12 13) ∧
    dtMin 2024 8 26 ≤ dtMin 2024 12 13 ∧
    sampleLogin ∈ (lmsStep hashZero ([], [], rngZero) cexEnrollment).1 ∧
    (sampleLogin ∈ ([] : List LmsLogin) ∨
      (dtMin 2024 8 26 ≤ sampleLogin.event_ts ∧
       sampleLogin.event_ts < dtMin 2024 12 13 + 1440)) :=
  ⟨by decide, by decide, by decide,
   c6_login_event_within_term hashZero ([], [], rngZero) cexEnrollment
     (dtMin 2024 8 26) (dtMin 2024 12 13) (by decide) (by decide)
     sampleLogin (by decide)⟩

/-! ### The platform course id is not stable across processes -/

/-- A second hash-function realisation: in another interpreter process (a
different `PYTHONHASHSEED` salt) the builtin string hash is a different
function. -/
def hashOne : String → Int := fun _ => 1

/-- C1: the crosswalk produced by `generate_lms` depends on the per-process
salt of Python's builtin `hash`, not only on the seeded random stream: two
runs with the identical seeded stream and identical inputs but different
hash realisations produce different `lms_course_id` rows.  `random.seed`
does not fix the string-hash salt, so repeated runs of the generator are not
byte-identical. -/
theorem c1_lms_id_depends_on_hash_salt :
    (generate_lms hashZero [] [cexSection] rngZero).xwalk ≠
      (generate_lms hashOne [] [cexSection] rngZero).xwalk := by decide

/-! ### Financials: keys, sums and transaction ids -/

/-- The `(student_id, term_id)` key of a transaction. -/
def txKey (t : Transaction) : Int × String := (t.student_id, t.term_id)

/-- The `(student_id, term_id)` key of an account row. -/
def acctKey (a : StudentAccount) : Int × String := (a.student_id, a.term_id)

/-- The `(student_id, term_id)` key of an aid award. -/
def awardKey (w : AidAward) : Int × String := (w.student_id, w.term_id)

/-- The PAYMENT transactions of one (student, term) group. -/
def paymentTxs (k : Int × String) (l : List Transaction) : List Transaction :=
  l.filter (fun t => decide (txKey t = k ∧ t.trans_type = "PAYMENT"))

/-- The CHARGE transactions of one (student, term) group. -/
def chargeTxs (k : Int × String) (l : List Transaction) : List Transaction :=
  l.filter (fun t => decide (txKey t = k ∧ t.trans_type = "CHARGE"))

/-- Sum of transaction amounts. -/
def amountSum (l : List Transaction) : Int := (l.map (fun t => t.amount)).sum

/-- Total aid awarded to one (student, term) group (0 if none). -/
def aidAmt (k : Int × String) (l : List AidAward) : Int :=
  ((l.filter (fun w => decide (awardKey w = k))).map (fun w => w.amount)).sum

/-- The transaction ids minted from `n` consecutive counter values starting
at `c`. -/
def idsFrom (c n : Nat) : List String := (List.range n).map (fun i => txIdStr (c + i))

theorem length_idsFrom (c n : Nat) : (idsFrom c n).length = n := by
  simp [idsFrom]

theorem idsFrom_succ (c n : Nat) : idsFrom c (n + 1) = txIdStr c :: idsFrom (c + 1) n := by
  simp only [idsFrom, List.range_succ_eq_map, List.map_cons, Nat.add_zero, List.map_map]
  have hf : ((fun i => txIdStr (c + i)) ∘ Nat.succ) = fun i => txIdStr (c + 1 + i) := by
    funext i
    simp only [Function.comp_apply]
    congr 1
    omega
  rw [hf]

theorem idsFrom_one (c : Nat) : idsFrom c 1 = [txIdStr c] := by
  rw [idsFrom_succ]
  rfl

theorem idsFrom_append (c m p : Nat) :
    idsFrom c m ++ idsFrom (c + m) p = idsFrom c (m + p) := by
  induction m generalizing c with
  | zero => simp [idsFrom]
  | succ m ih =>
    rw [idsFrom_succ, List.cons_append,
      show c + (m + 1) = (c + 1) + m from by omega,
      ih, show m + 1 + p = (m + p) + 1 from by omega, idsFrom_succ]

theorem nodup_idsFrom (c n : Nat) : (idsFrom c n).Nodup := by
  refine List.Nodup.map ?_ (List.nodup_range n)
  intro a b hab
  have := txIdStr_injective hab
  omega

theorem amountSum_cons (t : Transaction) (l : List Transaction) :
    amountSum (t :: l) = t.amount + amountSum l := by
  simp [amountSum]

theorem amountSum_append (l1 l2 : List Transaction) :
    amountSum (l1 ++ l2) = amountSum l1 + amountSum l2 := by
  simp [amountSum]

/-- What the payments loop produces: it advances the counter by `n`, mints
the ids of the `n` consecutive counter values, returns the exact amount sum,
and every row is a PAYMENT of the group's key. -/
theorem paymentsLoop_spec (student_id : Int) (term_id : String) :
    ∀ (n c : Nat) (r : Rng),
      (paymentsLoop student_id term_id n c r).2.2.1 = c + n ∧
      (paymentsLoop student_id term_id n c r).1.map (fun t => t.transaction_id) =
        idsFrom c n ∧
      amountSum (paymentsLoop student_id term_id n c r).1 =
        (paymentsLoop student_id term_id n c r).2.1 ∧
      ∀ t ∈ (paymentsLoop student_id term_id n c r).1,
        txKey t = (student_id, term_id) ∧ t.trans_type = "PAYMENT" := by
  intro n
  induction n with
  | zero =>
    intro c r
    exact ⟨rfl, rfl, rfl, by simp [paymentsLoop]⟩
  | succ n ih =>
    intro c r
    obtain ⟨h1, h2, h3, h4⟩ :=
      ih (c + 1) (pychoice ["CARD", "ACH", "CASH"] "" (randint 200 2000 r).2).2
    refine ⟨?_, ?_, ?_, ?_⟩
    · simp only [paymentsLoop]
      rw [h1]
      omega
    · simp only [paymentsLoop, List.map_cons, h2, idsFrom_succ]
    · simp only [paymentsLoop, amountSum_cons, h3]
    · intro t ht
      simp only [paymentsLoop] at ht
      rcases List.mem_cons.mp ht with rfl | h
      · exact ⟨rfl, rfl⟩
      · exact h4 t h

/-- What the post-aid tail of one group produces: one new account row keyed
by the group, new transactions (the payments plus exactly one CHARGE) keyed
by the group with consecutive fresh ids, and the reconciled totals. -/
theorem groupTail_spec (sid : Int) (tid : String) (tc : Int) (st : FinState)
    (aidRes : Int × List AidAward × Nat × Rng) :
    ∃ acct newTxs,
      (groupTail sid tid tc st aidRes).accounts = st.accounts ++ [acct] ∧
      (groupTail sid tid tc st aidRes).transactions = st.transactions ++ newTxs ∧
      (groupTail sid tid tc st aidRes).aids = st.aids ++ aidRes.2.1 ∧
      (groupTail sid tid tc st aidRes).trans_id = st.trans_id + newTxs.length ∧
      acctKey acct = (sid, tid) ∧
      (∀ t ∈ newTxs, txKey t = (sid, tid)) ∧
      amountSum (paymentTxs (sid, tid) newTxs) + aidRes.1 = acct.total_payments ∧
      (chargeTxs (sid, tid) newTxs).map (fun t => t.amount) = [acct.total_charges] ∧
      acct.total_charges = tc ∧
      acct.balance = pyRound2 (acct.total_charges - acct.total_payments) ∧
      newTxs.map (fun t => t.transaction_id) = idsFrom st.trans_id newTxs.length ∧
      1 ≤ newTxs.length := by
  obtain ⟨hp1, hp2, hp3, hp4⟩ := paymentsLoop_spec sid tid
    (pychoice [1, 2, 3] 1 aidRes.2.2.2).1 st.trans_id
    (pychoice [1, 2, 3] 1 aidRes.2.2.2).2
  set pl := paymentsLoop sid tid (pychoice [1, 2, 3] 1 aidRes.2.2.2).1 st.trans_id
    (pychoice [1, 2, 3] 1 aidRes.2.2.2).2 with hpldef
  have hlen : pl.1.length = (pychoice [1, 2, 3] 1 aidRes.2.2.2).1 := by
    have := congrArg List.length hp2
    simpa [length_idsFrom] using this
  refine ⟨⟨sid, tid, pyRound2 tc, pyRound2 (pl.2.1 + aidRes.1),
      pyRound2 (tc - (pl.2.1 + aidRes.1))⟩,
    pl.1 ++ [(⟨txIdStr pl.2.2.1, sid, tid, chargeDt tid, "CHARGE", tc,
      "BILLING"⟩ : Transaction)],
    rfl, rfl, rfl, ?_, rfl, ?_, ?_, ?_, rfl, rfl, ?_, by simp⟩
  · show pl.2.2.1 + 1 = st.trans_id + _
    simp only [List.length_append, List.length_cons, List.length_nil, hp1, hlen]
    omega
  · intro t ht
    rcases List.mem_append.mp ht with h | h
    · exact (hp4 t h).1
    · rw [List.mem_singleton.mp h]
      rfl
  · have hfilt : paymentTxs (sid, tid)
        (pl.1 ++ [(⟨txIdStr pl.2.2.1, sid, tid, chargeDt tid, "CHARGE", tc,
          "BILLING"⟩ : Transaction)]) = pl.1 := by
      rw [paymentTxs, List.filter_append]
      have h1 : pl.1.filter
          (fun t => decide (txKey t = (sid, tid) ∧ t.trans_type = "PAYMENT")) = pl.1 :=
        List.filter_eq_self.mpr (fun t ht => by simp [(hp4 t ht).1, (hp4 t ht).2])
      have h2 : [(⟨txIdStr pl.2.2.1, sid, tid, chargeDt tid, "CHARGE", tc,
          "BILLING"⟩ : Transaction)].filter
          (fun t => decide (txKey t = (sid, tid) ∧ t.trans_type = "PAYMENT")) = [] := by
        simp [txKey]
      rw [h1, h2, List.append_nil]
    rw [hfilt, hp3]
    rfl
  · have hfilt : chargeTxs (sid, tid)
        (pl.1 ++ [(⟨txIdStr pl.2.2.1, sid, tid, chargeDt tid, "CHARGE", tc,
          "BILLING"⟩ : Transaction)]) =
        [(⟨txIdStr pl.2.2.1, sid, tid, chargeDt tid, "CHARGE", tc,
          "BILLING"⟩ : Transaction)] := by
      rw [chargeTxs, List.filter_append]
      have h1 : pl.1.filter
          (fun t => decide (txKey t = (sid, tid) ∧ t.trans_type = "CHARGE")) = [] := by
        rw [List.filter_eq_nil_iff]
        intro t ht
        simp [(hp4 t ht).2]
      have h2 : [(⟨txIdStr pl.2.2.1, sid, tid, chargeDt tid, "CHARGE", tc,
          "BILLING"⟩ : Transaction)].filter
          (fun t => decide (txKey t = (sid, tid) ∧ t.trans_type = "CHARGE")) =
          [(⟨txIdStr pl.2.2.1, sid, tid, chargeDt tid, "CHARGE", tc,
            "BILLING"⟩ : Transaction)] := by
        simp [txKey]
      rw [h1, h2, List.nil_append]
    rw [hfilt]
    rfl
  · rw [List.map_append, hp2]
    simp only [List.map_cons, List.map_nil, List.length_append, List.length_cons,
      List.length_nil, hlen, hp1]
    rw [← idsFrom_one (st.trans_id + (pychoice [1, 2, 3] 1 aidRes.2.2.2).1),
      idsFrom_append]

/-- What one full group step produces, covering both aid branches. -/
theorem processGroup_spec (ub : String → Int) (st : FinState)
    (g : (Int × String) × List Enrollment) :
    ∃ acct newTxs newAids,
      (processGroup ub st g).accounts = st.accounts ++ [acct] ∧
      (processGroup ub st g).transactions = st.transactions ++ newTxs ∧
      (processGroup ub st g).aids = st.aids ++ newAids ∧
      (processGroup ub st g).trans_id = st.trans_id + newTxs.length ∧
      acctKey acct = g.1 ∧
      (∀ t ∈ newTxs, txKey t = g.1) ∧
      (∀ w ∈ newAids, awardKey w = g.1) ∧
      amountSum (paymentTxs g.1 newTxs) + aidAmt g.1 newAids = acct.total_payments ∧
      (chargeTxs g.1 newTxs).map (fun t => t.amount) = [acct.total_charges] ∧
      acct.balance = pyRound2 (acct.total_charges - acct.total_payments) ∧
      newTxs.map (fun t => t.transaction_id) = idsFrom st.trans_id newTxs.length ∧
      1 ≤ newTxs.length := by
  have heta : ((g.1.1, g.1.2) : Int × String) = g.1 := rfl
  simp only [processGroup]
  generalize pyrandomLt 70 st.rng = q1
  generalize randint 100 400 q1.2 = q2
  generalize hq3 : pyrandomLt 55 q2.2 = q3
  by_cases haid : q3.1 = true
  · rw [if_pos haid]
    generalize randint 500 3500 q3.2 = q4
    generalize pychoice ["Grant", "Scholarship", "Loan"] "" q4.2 = q5
    obtain ⟨acct, newTxs, hacc, htx, haids, hcnt, hkey, htxk, hpay, hchg, htc, hbal,
      hids, hlen1⟩ := groupTail_spec g.1.1 g.1.2
      (pyRound2 ((List.map (fun e => ub e.course_section_id) g.2).sum *
        (if q1.1 = true then 350 else 650) + q2.1)) st
      (q4.1,
       [(⟨"AWD" ++ zfill 7 (pyDecStr st.award_id), g.1.1, g.1.2, q5.1, q4.1,
         disbursedDt g.1.2⟩ : AidAward)],
       st.award_id + 1, q5.2)
    refine ⟨acct, newTxs,
      [(⟨"AWD" ++ zfill 7 (pyDecStr st.award_id), g.1.1, g.1.2, q5.1, q4.1,
        disbursedDt g.1.2⟩ : AidAward)],
      hacc, htx, haids, hcnt, heta ▸ hkey, fun t ht => heta ▸ htxk t ht, ?_, ?_,
      heta ▸ hchg, hbal, hids, hlen1⟩
    · intro w hw
      rw [List.mem_singleton.mp hw]
      exact heta
    · have haidamt : aidAmt g.1
          [(⟨"AWD" ++ zfill 7 (pyDecStr st.award_id), g.1.1, g.1.2, q5.1, q4.1,
            disbursedDt g.1.2⟩ : AidAward)] = q4.1 := by
        simp [aidAmt, awardKey]
      rw [haidamt]
      exact heta ▸ hpay
  · rw [if_neg haid]
    obtain ⟨acct, newTxs, hacc, htx, haids, hcnt, hkey, htxk, hpay, hchg, htc, hbal,
      hids, hlen1⟩ := groupTail_spec g.1.1 g.1.2
      (pyRound2 ((List.map (fun e => ub e.course_section_id) g.2).sum *
        (if q1.1 = true then 350 else 650) + q2.1)) st
      (0, [], st.award_id, q3.2)
    refine ⟨acct, newTxs, [], hacc, htx, haids, hcnt, heta ▸ hkey,
      fun t ht => heta ▸ htxk t ht, fun w hw => absurd hw (List.not_mem_nil w), ?_,
      heta ▸ hchg, hbal, hids, hlen1⟩
    have h0 : aidAmt g.1 [] = 0 := rfl
    rw [h0, ← heta]
    simpa using hpay

theorem paymentTxs_append (k : Int × String) (l1 l2 : List Transaction) :
    paymentTxs k (l1 ++ l2) = paymentTxs k l1 ++ paymentTxs k l2 :=
  List.filter_append l1 l2

theorem chargeTxs_append (k : Int × String) (l1 l2 : List Transaction) :
    chargeTxs k (l1 ++ l2) = chargeTxs k l1 ++ chargeTxs k l2 :=
  List.filter_append l1 l2

theorem paymentTxs_nil_of_ne (k : Int × String) (l : List Transaction)
    (h : ∀ t ∈ l, txKey t ≠ k) : paymentTxs k l = [] := by
  rw [paymentTxs, List.filter_eq_nil_iff]
  intro t ht
  simp [h t ht]

theorem chargeTxs_nil_of_ne (k : Int × String) (l : List Transaction)
    (h : ∀ t ∈ l, txKey t ≠ k) : chargeTxs k l = [] := by
  rw [chargeTxs, List.filter_eq_nil_iff]
  intro t ht
  simp [h t ht]

theorem aidAmt_append (k : Int × String) (l1 l2 : List AidAward) :
    aidAmt k (l1 ++ l2) = aidAmt k l1 + aidAmt k l2 := by
  simp [aidAmt, List.filter_append]

theorem aidAmt_nil_of_ne (k : Int × String) (l : List AidAward)
    (h : ∀ w ∈ l, awardKey w ≠ k) : aidAmt k l = 0 := by
  have : l.filter (fun w => decide (awardKey w = k)) = [] := by
    rw [List.filter_eq_nil_iff]
    intro w hw
    simp [h w hw]
  simp [aidAmt, this]

/-- The loop invariant of `generate_financials`' main fold: account keys are
pairwise distinct, every transaction and aid key already has its account,
every emitted account reconciles exactly against the transaction ledger and
the aid list, and the transaction ids minted so far are exactly the ids of
the counter values `1 .. trans_id - 1`. -/
def FinInv (st : FinState) : Prop :=
  (st.accounts.map acctKey).Nodup ∧
  (∀ t ∈ st.transactions, txKey t ∈ st.accounts.map acctKey) ∧
  (∀ w ∈ st.aids, awardKey w ∈ st.accounts.map acctKey) ∧
  (∀ a ∈ st.accounts,
    amountSum (paymentTxs (acctKey a) st.transactions) + aidAmt (acctKey a) st.aids =
      a.total_payments ∧
    (chargeTxs (acctKey a) st.transactions).map (fun t => t.amount) =
      [a.total_charges] ∧
    a.balance = pyRound2 (a.total_charges - a.total_payments)) ∧
  st.transactions.map (fun t => t.transaction_id) = idsFrom 1 (st.trans_id - 1) ∧
  1 ≤ st.trans_id

theorem finFold_inv (ub : String → Int) :
    ∀ (groups : List ((Int × String) × List Enrollment)) (st : FinState),
      FinInv st → (groups.map Prod.fst).Nodup →
      (∀ k ∈ groups.map Prod.fst, k ∉ st.accounts.map acctKey) →
      FinInv (groups.foldl (processGroup ub) st) ∧
      (groups.foldl (processGroup ub) st).accounts.map acctKey =
        st.accounts.map acctKey ++ groups.map Prod.fst := by
  intro groups
  induction groups with
  | nil =>
    intro st h _ _
    exact ⟨h, by simp⟩
  | cons g rest ih =>
    intro st hInv hnd hdisj
    obtain ⟨hA, hB, hC, hD, hE, hE1⟩ := hInv
    obtain ⟨acct, newTxs, newAids, hacc, htx, haids, hcnt, hkey, htxk, haidk, hpay,
      hchg, hbal, hids, hlen1⟩ := processGroup_spec ub st g
    have hkfresh : g.1 ∉ st.accounts.map acctKey := hdisj g.1 (by simp)
    have hkeys' : (processGroup ub st g).accounts.map acctKey =
        st.accounts.map acctKey ++ [g.1] := by
      rw [hacc, List.map_append]
      simp [hkey]
    have hInv' : FinInv (processGroup ub st g) := by
      refine ⟨?_, ?_, ?_, ?_, ?_, ?_⟩
      · rw [hkeys']
        simp only [List.nodup_append, List.nodup_singleton, List.disjoint_singleton]
        exact ⟨hA, trivial, hkfresh⟩
      · intro t ht
        rw [htx] at ht
        rw [hkeys']
        rcases List.mem_append.mp ht with h | h
        · exact List.mem_append.mpr (Or.inl (hB t h))
        · exact List.mem_append.mpr (Or.inr (by simp [htxk t h]))
      · intro w hw
        rw [haids] at hw
        rw [hkeys']
        rcases List.mem_append.mp hw with h | h
        · exact List.mem_append.mpr (Or.inl (hC w h))
        · exact List.mem_append.mpr (Or.inr (by simp [haidk w h]))
      · intro a ha
        rw [hacc] at ha
        rcases List.mem_append.mp ha with h | h
        · have hka : acctKey a ∈ st.accounts.map acctKey := List.mem_map_of_mem _ h
          have hne : acctKey a ≠ g.1 := fun hh => hkfresh (hh ▸ hka)
          obtain ⟨hP, hQ, hR⟩ := hD a h
          rw [htx, haids]
          have hpt : paymentTxs (acctKey a) (st.transactions ++ newTxs) =
              paymentTxs (acctKey a) st.transactions := by
            have hnil : paymentTxs (acctKey a) newTxs = [] :=
              paymentTxs_nil_of_ne _ _
                (fun t ht => by rw [htxk t ht]; exact fun hh => hne hh.symm)
            rw [paymentTxs_append, hnil, List.append_nil]
          have hct : chargeTxs (acctKey a) (st.transactions ++ newTxs) =
              chargeTxs (acctKey a) st.transactions := by
            have hnil : chargeTxs (acctKey a) newTxs = [] :=
              chargeTxs_nil_of_ne _ _
                (fun t ht => by rw [htxk t ht]; exact fun hh => hne hh.symm)
            rw [chargeTxs_append, hnil, List.append_nil]
          have hat : aidAmt (acctKey a) (st.aids ++ newAids) =
              aidAmt (acctKey a) st.aids := by
            have hnil : aidAmt (acctKey a) newAids = 0 :=
              aidAmt_nil_of_ne _ _
                (fun w hw => by rw [haidk w hw]; exact fun hh => hne hh.symm)
            rw [aidAmt_append, hnil, Int.add_zero]
          rw [hpt, hct, hat]
          exact ⟨hP, hQ, hR⟩
        · have heq := List.mem_singleton.mp h
          subst heq
          rw [htx, haids, hkey]
          have hptOld : paymentTxs g.1 st.transactions = [] := by
            refine paymentTxs_nil_of_ne _ _ (fun t ht hh => hkfresh ?_)
            rw [← hh]
            exact hB t ht
          have hctOld : chargeTxs g.1 st.transactions = [] := by
            refine chargeTxs_nil_of_ne _ _ (fun t ht hh => hkfresh ?_)
            rw [← hh]
            exact hB t ht
          have hatOld : aidAmt g.1 st.aids = 0 := by
            refine aidAmt_nil_of_ne _ _ (fun w hw hh => hkfresh ?_)
            rw [← hh]
            exact hC w hw
          rw [paymentTxs_append, chargeTxs_append, aidAmt_append, hptOld, hctOld,
            hatOld, List.nil_append, List.nil_append, Int.zero_add]
          exact ⟨hpay, hchg, hbal⟩
      · rw [htx, List.map_append, hE, hids, hcnt]
        have happ := idsFrom_append 1 (st.trans_id - 1) newTxs.length
        rw [show 1 + (st.trans_id - 1) = st.trans_id from by omega] at happ
        rw [happ, show st.trans_id - 1 + newTxs.length =
          st.trans_id + newTxs.length - 1 from by omega]
      · rw [hcnt]
        omega
    have hnd2 : (g.1 :: rest.map Prod.fst).Nodup := by
      rw [← List.map_cons]
      exact hnd
    obtain ⟨hknr, hndr⟩ := List.nodup_cons.mp hnd2
    have hdisj' : ∀ k ∈ rest.map Prod.fst,
        k ∉ (processGroup ub st g).accounts.map acctKey := by
      intro k hk hmem
      rw [hkeys'] at hmem
      rcases List.mem_append.mp hmem with h | h
      · exact hdisj k (by simp [hk]) h
      · exact hknr ((List.mem_singleton.mp h) ▸ hk)
    obtain ⟨hfin, hkeys''⟩ := ih (processGroup ub st g) hInv' hndr hdisj'
    refine ⟨hfin, ?_⟩
    rw [show (g :: rest).foldl (processGroup ub) st =
      rest.foldl (processGroup ub) (processGroup ub st g) from rfl, hkeys'', hkeys']
    simp

/-- The reconciliation facts of a full `finRun`: distinct account keys (one
per grouped (student, term)), key list equal to the grouping's key list,
ledger-reconciled accounts, and pairwise-distinct transaction ids. -/
theorem finRun_inv (ub : String → Int) (enrollments : List Enrollment) (r : Rng) :
    ((finRun ub enrollments r).student_accounts.map acctKey).Nodup ∧
    (finRun ub enrollments r).student_accounts.map acctKey =
      (groupByKey (fun e => (e.student_id, e.term_id)) enrollments).map Prod.fst ∧
    (∀ a ∈ (finRun ub enrollments r).student_accounts,
      amountSum (paymentTxs (acctKey a) (finRun ub enrollments r).transactions) +
        aidAmt (acctKey a) (finRun ub enrollments r).aid_awards = a.total_payments ∧
      (chargeTxs (acctKey a) (finRun ub enrollments r).transactions).map
        (fun t => t.amount) = [a.total_charges] ∧
      a.balance = pyRound2 (a.total_charges - a.total_payments)) ∧
    ((finRun ub enrollments r).transactions.map (fun t => t.transaction_id)).Nodup := by
  have hst0 : FinInv ⟨[], [], [], 1, 1, r⟩ :=
    ⟨List.nodup_nil, by simp, by simp, by simp, rfl, le_refl 1⟩
  obtain ⟨hinv, hkeys⟩ := finFold_inv ub
    (groupByKey (fun e => (e.student_id, e.term_id)) enrollments)
    ⟨[], [], [], 1, 1, r⟩ hst0 (nodup_keys_groupByKey _ _) (by simp)
  obtain ⟨hA, hB, hC, hD, hE, hE1⟩ := hinv
  refine ⟨hA, by simpa using hkeys, hD, ?_⟩
  have := nodup_idsFrom 1
    (((groupByKey (fun e => (e.student_id, e.term_id)) enrollments).foldl
      (processGroup ub) ⟨[], [], [], 1, 1, r⟩).trans_id - 1)
  rw [← hE] at this
  exact this

/-- C3: for every (student, term) group of a successful `generate_financials`
run, the emitted account row satisfies
`balance = round2 (total_charges - total_payments)` and the sum of the
group's PAYMENT transactions plus the group's aid (0 if none) equals
`total_payments`. -/
theorem c3_account_reconciles (cu : String → Int) (enrollments : List Enrollment)
    (r : Rng) (out : FinOut) (h : generate_financials cu enrollments r = .ok out) :
    ∀ a ∈ out.student_accounts,
      a.balance = pyRound2 (a.total_charges - a.total_payments) ∧
      amountSum (paymentTxs (acctKey a) out.transactions) +
        aidAmt (acctKey a) out.aid_awards = a.total_payments := by
  by_cases he : enrollments = []
  · rw [generate_financials, if_pos he] at h
    cases h
  · rw [generate_financials, if_neg he] at h
    injection h with h
    subst h
    obtain ⟨_, _, hD, _⟩ := finRun_inv (unitsBySection cu) enrollments r
    intro a ha
    exact ⟨(hD a ha).2.2, (hD a ha).1⟩

/-- C4: for every (student, term) group of a successful `generate_financials`
run, exactly one CHARGE transaction carries the group's key, and its amount
is the group's `total_charges`. -/
theorem c4_single_charge (cu : String → Int) (enrollments : List Enrollment)
    (r : Rng) (out : FinOut) (h : generate_financials cu enrollments r = .ok out) :
    ∀ a ∈ out.student_accounts,
      (chargeTxs (acctKey a) out.transactions).map (fun t => t.amount) =
        [a.total_charges] := by
  by_cases he : enrollments = []
  · rw [generate_financials, if_pos he] at h
    cases h
  · rw [generate_financials, if_neg he] at h
    injection h with h
    subst h
    obtain ⟨_, _, hD, _⟩ := finRun_inv (unitsBySection cu) enrollments r
    intro a ha
    exact (hD a ha).2.1

/-- C10: all transaction ids emitted by a successful `generate_financials`
run are pairwise distinct (they render a strictly increasing counter shared
by PAYMENT and CHARGE transactions). -/
theorem c10_transaction_ids_distinct (cu : String → Int)
    (enrollments : List Enrollment) (r : Rng) (out : FinOut)
    (h : generate_financials cu enrollments r = .ok out) :
    (out.transactions.map (fun t => t.transaction_id)).Nodup := by
  by_cases he : enrollments = []
  · rw [generate_financials, if_pos he] at h
    cases h
  · rw [generate_financials, if_neg he] at h
    injection h with h
    subst h
    exact (finRun_inv (unitsBySection cu) enrollments r).2.2.2

/-! ### Per-student enrollment blocks (for the account-existence claim) -/

theorem enrStep_append (sbt : List (String × List Section)) (cur prior : String)
    (st : List Enrollment × Rng) (stud : Student) :
    ∃ blk, (enrStep sbt cur prior st stud).1 = st.1 ++ blk := by
  simp only [enrStep]
  split
  · exact ⟨_, by rw [List.append_assoc]⟩
  · exact ⟨_, rfl⟩

theorem enrFold_suffix (sbt : List (String × List Section)) (cur prior : String) :
    ∀ (students : List Student) (st : List Enrollment × Rng),
      ∃ suf, (students.foldl (enrStep sbt cur prior) st).1 = st.1 ++ suf := by
  intro students
  induction students with
  | nil => intro st; exact ⟨[], by simp⟩
  | cons t rest ih =>
    intro st
    obtain ⟨b, hb⟩ := enrStep_append sbt cur prior st t
    obtain ⟨suf, hsuf⟩ := ih (enrStep sbt cur prior st t)
    exact ⟨b ++ suf, by
      rw [show (t :: rest).foldl (enrStep sbt cur prior) st =
        rest.foldl (enrStep sbt cur prior) (enrStep sbt cur prior st t) from rfl,
        hsuf, hb, List.append_assoc]⟩

/-- Every listed student contributes a contiguous block of at least 4
current-term enrollments (its sampled 4–5 sections), provided the current
term's bucket has at least 5 sections. -/
theorem enrFold_block (sbt : List (String × List Section)) (cur prior : String)
    (hb5 : 5 ≤ (assocD cur [] sbt).length) :
    ∀ (students : List Student) (st : List Enrollment × Rng), ∀ s ∈ students,
      ∃ l1 blk l2, (students.foldl (enrStep sbt cur prior) st).1 = l1 ++ (blk ++ l2) ∧
        4 ≤ blk.length ∧
        ∀ e ∈ blk, e.student_id = s.student_id ∧ e.term_id = cur := by
  intro students
  induction students with
  | nil => intro st s hs; exact absurd hs (List.not_mem_nil s)
  | cons t rest ih =>
    intro st s hs
    rcases List.mem_cons.mp hs with rfl | hs'
    · obtain ⟨suf, hsuf⟩ := enrFold_suffix sbt cur prior rest (enrStep sbt cur prior st s)
      have hkmem : (pychoice [4, 4, 5] 4 st.2).1 ∈ [4, 4, 5] :=
        pychoice_mem _ _ (by decide)
      have hk45 : 4 ≤ (pychoice [4, 4, 5] 4 st.2).1 ∧
          (pychoice [4, 4, 5] 4 st.2).1 ≤ 5 := by
        simp only [List.mem_cons, List.not_mem_nil, or_false] at hkmem
        rcases hkmem with h | h | h <;> omega
      have hslen : (pysample (assocD cur [] sbt) (pychoice [4, 4, 5] 4 st.2).1
          (pychoice [4, 4, 5] 4 st.2).2).1.length = (pychoice [4, 4, 5] 4 st.2).1 :=
        pysample_length _ _ _ (le_trans hk45.2 hb5)
      have hstep : ∃ tail, (enrStep sbt cur prior st s).1 =
          st.1 ++ ((pysample (assocD cur [] sbt) (pychoice [4, 4, 5] 4 st.2).1
            (pychoice [4, 4, 5] 4 st.2).2).1.map (mkCurrentEnr s.student_id cur) ++
            tail) := by
        simp only [enrStep]
        split
        · exact ⟨_, by rw [List.append_assoc]⟩
        · exact ⟨[], by rw [List.append_nil]⟩
      obtain ⟨tail, htail⟩ := hstep
      refine ⟨st.1,
        (pysample (assocD cur [] sbt) (pychoice [4, 4, 5] 4 st.2).1
          (pychoice [4, 4, 5] 4 st.2).2).1.map (mkCurrentEnr s.student_id cur),
        tail ++ suf, ?_, ?_, ?_⟩
      · calc ((s :: rest).foldl (enrStep sbt cur prior) st).1
            = (enrStep sbt cur prior st s).1 ++ suf := hsuf
          _ = _ := by rw [htail]; simp [List.append_assoc]
      · rw [List.length_map, hslen]
        exact hk45.1
      · intro e hemem
        obtain ⟨sec, hsec, rfl⟩ := List.mem_map.mp hemem
        exact ⟨rfl, rfl⟩
    · exact ih (enrStep sbt cur prior st t) s hs'

theorem generate_enrollments_block (students : List Student)
    (sections : List Section) (r : Rng)
    (hcur : 5 ≤ (sections.filter (fun s => decide (s.term_id = "2025FA"))).length) :
    ∀ s ∈ students, ∃ l1 blk l2,
      (generate_enrollments students sections generate_terms r).1 = l1 ++ (blk ++ l2) ∧
      4 ≤ blk.length ∧
      ∀ e ∈ blk, e.student_id = s.student_id ∧ e.term_id = "2025FA" := by
  have hb5 : 5 ≤ (assocD "2025FA" []
      (groupByKey (fun s : Section => s.term_id) sections)).length := by
    rw [assocD_groupByKey]
    exact hcur
  intro s hs
  exact enrFold_block _ _ _ hb5 students ([], r) s hs

/-- C9: in the generated pipeline (students → enrollments → financials),
every student has at least 4 current-term enrollments, so the grouping key
(student, last term) always exists and exactly one StudentAccount row is
emitted for it; and in general at most one StudentAccount row exists per
(student_id, term_id) key. -/
theorem c9_one_account_per_student_term (n : Int) (advisors : List Advisor)
    (sections : List Section) (cu : String → Int) (r : Rng)
    (students : List Student) (r2 : Rng) (enrs : List Enrollment) (r3 : Rng)
    (out : FinOut)
    (_hs : generate_students n generate_terms advisors r = (students, r2))
    (he : generate_enrollments students sections generate_terms r2 = (enrs, r3))
    (hf : generate_financials cu enrs r3 = .ok out)
    (hcur : 5 ≤ (sections.filter (fun s => decide (s.term_id = "2025FA"))).length) :
    (∀ s ∈ students,
      4 ≤ (enrs.filter (fun e =>
        decide (e.student_id = s.student_id ∧ e.term_id = "2025FA"))).length ∧
      (out.student_accounts.filter (fun a =>
        decide (acctKey a = (s.student_id, "2025FA")))).length = 1) ∧
    ∀ k : Int × String,
      (out.student_accounts.filter (fun a => decide (acctKey a = k))).length ≤ 1 := by
  by_cases he0 : enrs = []
  · rw [generate_financials, if_pos he0] at hf
    cases hf
  · rw [generate_financials, if_neg he0] at hf
    injection hf with hf
    subst hf
    obtain ⟨hA, hKeys, _, _⟩ := finRun_inv (unitsBySection cu) enrs r3
    have henr : (generate_enrollments students sections generate_terms r2).1 = enrs := by
      rw [he]
    refine ⟨?_, fun k => length_filter_key_le_one hA k⟩
    intro s hsmem
    obtain ⟨l1, blk, l2, heq, hlen, hmem⟩ :=
      generate_enrollments_block students sections r2 hcur s hsmem
    rw [henr] at heq
    have hcount : 4 ≤ (enrs.filter (fun e =>
        decide (e.student_id = s.student_id ∧ e.term_id = "2025FA"))).length := by
      rw [heq, List.filter_append, List.filter_append, List.length_append,
        List.length_append]
      have hb : blk.filter (fun e =>
          decide (e.student_id = s.student_id ∧ e.term_id = "2025FA")) = blk :=
        List.filter_eq_self.mpr
          (fun e hb => by simp [(hmem e hb).1, (hmem e hb).2])
      rw [hb]
      omega
    refine ⟨hcount, ?_⟩
    have hblk_ne : blk ≠ [] := by
      intro hnil
      rw [hnil] at hlen
      simp at hlen
    obtain ⟨e0, he0'⟩ := List.exists_mem_of_ne_nil blk hblk_ne
    have he0enr : e0 ∈ enrs := by
      rw [heq]
      exact List.mem_append.mpr (Or.inr (List.mem_append.mpr (Or.inl he0')))
    have hkey0 : ((e0.student_id, e0.term_id) : Int × String) =
        (s.student_id, "2025FA") := by
      rw [(hmem e0 he0').1, (hmem e0 he0').2]
    have hkmem : ((s.student_id, "2025FA") : Int × String) ∈
        (groupByKey (fun e : Enrollment => (e.student_id, e.term_id)) enrs).map
          Prod.fst :=
      (mem_keys_groupByKey _ _ _).mpr ⟨e0, he0enr, hkey0⟩
    rw [← hKeys] at hkmem
    exact length_filter_key_eq_one hA hkmem

/-! ### Concrete financial run for witnesses -/

/-- A constant units lookup standing in for `courses_by_id` in witnesses. -/
def sampleCu : String → Int := fun _ => 3

/-- The concrete financial run over the sample enrollments. -/
def sampleFinOut : FinOut :=
  finRun (unitsBySection sampleCu) sampleEnrRun.1 sampleEnrRun.2

/-- Fallback account value for `headD`. -/
def dummyAccount : StudentAccount := ⟨0, "", 0, 0, 0⟩

/-- First account row of the concrete financial run. -/
def sampleAccount : StudentAccount :=
  sampleFinOut.student_accounts.headD dummyAccount

/-- Witness for C3 at a concrete input. -/
theorem c3_account_reconciles_witness :
    sampleAccount ∈ sampleFinOut.student_accounts ∧
    (sampleAccount.balance =
      pyRound2 (sampleAccount.total_charges - sampleAccount.total_payments) ∧
     amountSum (paymentTxs (acctKey sampleAccount) sampleFinOut.transactions) +
       aidAmt (acctKey sampleAccount) sampleFinOut.aid_awards =
       sampleAccount.total_payments) :=
  ⟨by decide,
   c3_account_reconciles sampleCu sampleEnrRun.1 sampleEnrRun.2 sampleFinOut rfl
     sampleAccount (by decide)⟩

/-- Witness for C4 at a concrete input. -/
theorem c4_single_charge_witness :
    sampleAccount ∈ sampleFinOut.student_accounts ∧
    (chargeTxs (acctKey sampleAccount) sampleFinOut.transactions).map
      (fun t => t.amount) = [sampleAccount.total_charges] :=
  ⟨by decide,
   c4_single_charge sampleCu sampleEnrRun.1 sampleEnrRun.2 sampleFinOut rfl
     sampleAccount (by decide)⟩

/-- Witness for C10 at a concrete input. -/
theorem c10_transaction_ids_distinct_witness :
    (sampleFinOut.transactions.map (fun t => t.transaction_id)).Nodup :=
  c10_transaction_ids_distinct sampleCu sampleEnrRun.1 sampleEnrRun.2 sampleFinOut rfl

/-- Witness for C9 at a concrete input. -/
theorem c9_one_account_per_student_term_witness :
    sampleStudent ∈ (generate_students 1 generate_terms [dummyAdvisor] rngZero).1 ∧
    ((4 ≤ (sampleEnrRun.1.filter (fun e =>
        decide (e.student_id = sampleStudent.student_id ∧
          e.term_id = "2025FA"))).length ∧
      (sampleFinOut.student_accounts.filter (fun a =>
        decide (acctKey a = (sampleStudent.student_id, "2025FA")))).length = 1) ∧
     (sampleFinOut.student_accounts.filter (fun a =>
        decide (acctKey a = ((0 : Int), "")))).length ≤ 1) := by
  have h := c9_one_account_per_student_term 1 [dummyAdvisor] sampleSections sampleCu
    rngZero (generate_students 1 generate_terms [dummyAdvisor] rngZero).1
    (generate_students 1 generate_terms [dummyAdvisor] rngZero).2
    sampleEnrRun.1 sampleEnrRun.2 sampleFinOut rfl rfl rfl (by decide)
  exact ⟨by decide, h.1 sampleStudent (by decide), h.2 ((0 : Int), "")⟩

/-! ### The non-positive student count path of `main` -/

theorem generate_enrollments_nil (sections : List Section) (terms : List Term)
    (r : Rng) : generate_enrollments [] sections terms r = ([], r) := rfl

/-- With a non-positive student count, the run writes the SIS, LMS and
admissions files and then dies in `generate_financials` with the `max()`
`ValueError` on the empty enrollment set; there is no argument validation. -/
theorem runMain_nonpos (n : Int) (hn : n ≤ 0) (ph : String → Int) (r : Rng) :
    runMain n ph r =
      (preFinFiles, some (.valueError "max() arg is an empty sequence")) := by
  have hzero : n.toNat = 0 := Int.toNat_of_nonpos hn
  have hstud : ∀ (terms : List Term) (advisors : List Advisor) (r' : Rng),
      generate_students n terms advisors r' = ([], r') := by
    intro terms advisors r'
    rw [generate_students, hzero]
    rfl
  simp only [runMain, hstud, generate_enrollments_nil, generate_financials]
  rfl

/-- C5 (counterexample): at student count 0 the generator does not abort
with `InvalidArgument` and does produce output — ten files are written
before the run aborts with the `ValueError` from `generate_financials`. -/
theorem c5_counterexample :
    runMain 0 hashZero rngZero =
      (preFinFiles, some (.valueError "max() arg is an empty sequence")) ∧
    preFinFiles ≠ [] :=
  ⟨runMain_nonpos 0 (by decide) hashZero rngZero, by decide⟩

/-- C5 (amended): for every non-positive student count, `main` performs no
validation and raises no `InvalidArgument`: it generates zero students,
writes the ten SIS, LMS and admissions files, and aborts with the unhandled
`ValueError: max() arg is an empty sequence` raised inside
`generate_financials`; the financial and advising files are never written,
so the run leaves partial output. -/
theorem c5_no_validation_partial_output (n : Int) (hn : n ≤ 0)
    (ph : String → Int) (r : Rng) :
    (runMain n ph r).1 = preFinFiles ∧ (runMain n ph r).1 ≠ [] ∧
    (runMain n ph r).2 = some (.valueError "max() arg is an empty sequence") := by
  rw [runMain_nonpos n hn ph r]
  exact ⟨rfl, by decide, rfl⟩

/-- Witness for C5 (amended) at a concrete input. -/
theorem c5_no_validation_partial_output_witness :
    (runMain 0 hashOne rngZero).1 = preFinFiles ∧ (runMain 0 hashOne rngZero).1 ≠ [] ∧
    (runMain 0 hashOne rngZero).2 =
      some (.valueError "max() arg is an empty sequence") :=
  c5_no_validation_partial_output 0 (by decide) hashOne rngZero

end Student360
